import Mathlib

/-!
Verification of a small compiler pipeline (lexer-fed parser, constant-folding
optimizer, bytecode generator with label back-patching, and a stack-based
virtual machine with call frames).

The definitions below are a shallow embedding of the source files
`parser.rs`, `optimizer.rs`, `code_generator.rs` and `virtual_machine.rs`:

* Rust `HashMap`s that are only used through `get`/`insert` (and `clear`)
  are modelled as association lists where insertion prepends and lookup
  returns the first match; this has exactly the observable get/insert
  semantics of a replacing hash map.
* Rust `Vec`s used as stacks (operand stack, frame stack, call stack) are
  modelled as lists with the most recently pushed element at the head.
  The `unresolved_jumps` vector of the code generator is iterated in
  insertion order, so it is modelled with appends at the tail.
* Rust panics (and non-returning `Result::Err` propagation inside the VM)
  are modelled as `Option.none`; `i64` values are modelled as `Int`
  (`i64` division truncates toward zero, so division is `Int.tdiv`).
* The parser's mutually recursive procedures are modelled with an explicit
  fuel parameter; exhausted fuel (`PResult.out`) models non-termination,
  which is distinct from a parse error (`PResult.err`).
-/

namespace SimpleCompiler

/-! ## Association lists modelling the replacing hash maps -/

def assocFind {κ α : Type} [DecidableEq κ] : List (κ × α) → κ → Option α
  | [], _ => none
  | (k, v) :: rest, key => if k = key then some v else assocFind rest key

/-! ## Abstract syntax (`parser.rs`, data model) -/

inductive Operator
  | add
  | subtract
  | multiply
  | divide
deriving DecidableEq

inductive ComparativeOperator
  | equal
  | notEqual
deriving DecidableEq

inductive TypeAnnotation
  | int
deriving DecidableEq

structure Parameter where
  name : String
  typeAnnotation : TypeAnnotation
deriving DecidableEq

inductive Expression
  | integer (value : Int)
  | identifier (name : String)
  | functionCall (name : String) (arguments : List Expression)
  | arithmeticExpression (left : Expression) (operator : Operator) (right : Expression)

inductive Condition
  | comparison (left : Expression) (operator : ComparativeOperator) (right : Expression)

mutual
inductive Statement
  | variableDeclaration (identifier : String) (value : Expression)
  | functionDeclaration (name : String) (parameters : List Parameter)
      (returnType : Option TypeAnnotation) (body : Block)
  | functionCall (expr : Expression)
  | assignment (identifier : String) (value : Expression)
  | print (expr : Expression)
  | ifStatement (condition : Condition) (thenBlock : Block) (elseBlock : Option Block)

inductive Block
  | mk (statements : List Statement) (returnExpression : Option Expression)
end

def Block.statements : Block → List Statement
  | .mk s _ => s

def Block.returnExpression : Block → Option Expression
  | .mk _ r => r

inductive Program
  | statements (stmts : List Statement)

/-! ## Optimizer (`optimizer.rs`)

`constantFold` is the literal translation of `Optimizer::constant_fold`:
both children are folded first and the Rust `match` arms are reproduced in
order (the guarded division arm is rendered by the `if` on the right
literal; no other arm can match a division of two literals, so falling
through the guard reaches the reconstructing catch-all arm). -/

/-- The `match` of `constant_fold` over the two already-folded children,
with the Rust arms reproduced in their source order (the guarded division
arm is the `if` on the right literal; falling through that guard can only
reach the reconstructing catch-all arm). -/
def foldArms : Expression → Operator → Expression → Expression
  | .integer a, .add, .integer b => .integer (a + b)
  | .integer a, .subtract, .integer b => .integer (a - b)
  | .integer a, .multiply, .integer b => .integer (a * b)
  | .integer a, .divide, .integer b =>
      if b ≠ 0 then .integer (Int.tdiv a b)
      else .arithmeticExpression (.integer a) .divide (.integer b)
  | .integer a, .multiply, rf =>
      if a = 1 then rf
      else if a = 0 then .integer 0
      else .arithmeticExpression (.integer a) .multiply rf
  | lf, .multiply, .integer b =>
      if b = 1 then lf
      else if b = 0 then .integer 0
      else .arithmeticExpression lf .multiply (.integer b)
  | .integer a, .add, rf =>
      if a = 0 then rf else .arithmeticExpression (.integer a) .add rf
  | lf, .add, .integer b =>
      if b = 0 then lf else .arithmeticExpression lf .add (.integer b)
  | lf, op, rf => .arithmeticExpression lf op rf

def constantFold : Expression → Expression
  | .arithmeticExpression l op r => foldArms (constantFold l) op (constantFold r)
  | e => e

def optimizeCondition : Condition → Condition
  | .comparison l op r => .comparison (constantFold l) op (constantFold r)

mutual
def optimizeStatement : Statement → Statement
  | .variableDeclaration id v => .variableDeclaration id (constantFold v)
  | .functionDeclaration name params rt body =>
      .functionDeclaration name params rt (optimizeBlock body)
  | .functionCall e => .functionCall (constantFold e)
  | .assignment id v => .assignment id (constantFold v)
  | .print e => .print (constantFold e)
  | .ifStatement cond thenB elseB =>
      .ifStatement (optimizeCondition cond) (optimizeBlock thenB)
        (match elseB with
         | none => none
         | some b => some (optimizeBlock b))

def optimizeStatementList : List Statement → List Statement
  | [] => []
  | st :: sts => optimizeStatement st :: optimizeStatementList sts

def optimizeBlock : Block → Block
  | .mk stmts retE =>
      .mk (optimizeStatementList stmts) (retE.map constantFold)
end

def optimizeAst : Program → Program
  | .statements stmts => .statements (optimizeStatementList stmts)

/-! ## Code generator (`code_generator.rs`) -/

inductive OpCode
  | PUSH (value : Int)
  | PRINT
  | ADD
  | SUB
  | MUL
  | DIV
  | STORE (name : String)
  | LOAD (name : String)
  | DECLARE (name : String)
  | TailCall (name : String)
  | CALL (name : String)
  | RET
  | ENTER
  | EXIT
  | JUMP (address : Nat)
  | JmpIfFalse (address : Nat)
  | EQUAL
  | NotEqual
deriving DecidableEq

structure GenState where
  opcodeList : List OpCode
  labelCounter : Nat
  labelPositions : List (Nat × Nat)
  unresolvedJumps : List (Nat × Nat)
deriving DecidableEq

def GenState.initial : GenState := ⟨[], 0, [], []⟩

def emit (s : GenState) (op : OpCode) : GenState :=
  { s with opcodeList := s.opcodeList ++ [op] }

def getNewLabel (s : GenState) : Nat × GenState :=
  (s.labelCounter, { s with labelCounter := s.labelCounter + 1 })

def setLabelPosition (s : GenState) (label : Nat) : GenState :=
  { s with labelPositions := (label, s.opcodeList.length) :: s.labelPositions }

def emitJump (s : GenState) (op : OpCode) (label : Nat) : GenState :=
  { s with opcodeList := s.opcodeList ++ [op],
           unresolvedJumps := s.unresolvedJumps ++ [(label, s.opcodeList.length)] }

def operatorOpcode : Operator → OpCode
  | .add => .ADD
  | .subtract => .SUB
  | .multiply => .MUL
  | .divide => .DIV

def comparativeOpcode : ComparativeOperator → OpCode
  | .equal => .EQUAL
  | .notEqual => .NotEqual

mutual
def generateExpression : Expression → GenState → GenState
  | .integer v, s => emit s (.PUSH v)
  | .identifier n, s => emit s (.LOAD n)
  | .arithmeticExpression l op r, s =>
      emit (generateExpression r (generateExpression l s)) (operatorOpcode op)
  | .functionCall n args, s => emit (generateExpressionList args s) (.CALL n)

def generateExpressionList : List Expression → GenState → GenState
  | [], s => s
  | e :: es, s => generateExpressionList es (generateExpression e s)
end

def generateCondition : Condition → GenState → GenState
  | .comparison l op r, s =>
      emit (generateExpression r (generateExpression l s)) (comparativeOpcode op)

def emitParamStores : List Parameter → GenState → GenState
  | [], s => s
  | p :: ps, s => emitParamStores ps (emit s (.STORE p.name))

mutual
def generateStatement : Statement → GenState → GenState
  | .variableDeclaration id v, s => emit (generateExpression v s) (.STORE id)
  | .assignment id v, s => emit (generateExpression v s) (.STORE id)
  | .functionDeclaration name params _ body, s =>
      let s1 := emit (emit s (.DECLARE name)) .ENTER
      let s2 := emitParamStores params.reverse s1
      let s3 := generateBlock body s2
      let s4 := if body.returnExpression.isSome then s3 else emit s3 .RET
      emit s4 .EXIT
  | .functionCall e, s => generateExpression e s
  | .print e, s => emit (generateExpression e s) .PRINT
  | .ifStatement cond thenB elseB, s =>
      let s1 := generateCondition cond s
      let p2 := getNewLabel s1
      let p3 := getNewLabel p2.2
      let s4 := emitJump p3.2 (.JmpIfFalse 0) p2.1
      let s5 := generateBlock thenB s4
      let s6 := emitJump s5 (.JUMP 0) p3.1
      let s7 := setLabelPosition s6 p2.1
      let s8 := match elseB with
                | some b => generateBlock b s7
                | none => s7
      setLabelPosition s8 p3.1

def generateStatementList : List Statement → GenState → GenState
  | [], s => s
  | st :: sts, s => generateStatementList sts (generateStatement st s)

def generateBlock : Block → GenState → GenState
  | .mk stmts retE, s =>
      let s1 := generateStatementList stmts s
      match retE with
      | some (.functionCall name args) =>
          emit (emit (generateExpressionList args s1) (.TailCall name)) .RET
      | some e => emit (generateExpression e s1) .RET
      | none => s1
end

/-- `resolve_labels` turns the placeholder address of a pending jump into
its label's recorded position; a missing label or a non-jump opcode at a
recorded index is a panic (`none`).  An out-of-range index is silently
skipped, mirroring the `if let Some(opcode) = ... get_mut(...)` in the
source. -/
def setJumpAddress (op : OpCode) (addr : Nat) : Option OpCode :=
  match op with
  | .JUMP _ => some (.JUMP addr)
  | .JmpIfFalse _ => some (.JmpIfFalse addr)
  | _ => none

def resolveLoop : List (Nat × Nat) → List (Nat × Nat) → List OpCode → Option (List OpCode)
  | [], _, ops => some ops
  | (label, idx) :: rest, positions, ops =>
      match assocFind positions label with
      | none => none
      | some pos =>
          match ops[idx]? with
          | none => resolveLoop rest positions ops
          | some op =>
              match setJumpAddress op pos with
              | none => none
              | some op2 => resolveLoop rest positions (ops.set idx op2)

def generateProgramState : Program → GenState
  | .statements stmts => generateStatementList stmts GenState.initial

def generate (p : Program) : Option (List OpCode) :=
  let g := generateProgramState p
  resolveLoop g.unresolvedJumps g.labelPositions g.opcodeList

/-! ## Virtual machine (`virtual_machine.rs`)

`execInstr` mirrors one arm of `VirtualMachine::execute`; the boolean in
its result is `true` exactly for the arms that `return` early in the
source (`RET`, `JUMP`, and a taken `JmpIfFalse`), which skip the implicit
`next_instruction` advance at the end of `execute`. -/

structure Frame where
  localVariables : List (String × Int)
  returnAddress : Nat
deriving DecidableEq

structure VMState where
  stack : List Int
  globals : List (String × Int)
  instructions : List OpCode
  instructionPointer : Nat
  callStack : List Nat
  stackFrames : List Frame
  functions : List (String × Nat)
  output : List Int
deriving DecidableEq

def VMState.initial (instructions : List OpCode) : VMState :=
  ⟨[], [], instructions, 0, [], [], [], []⟩

def getVariable (s : VMState) (name : String) : Option Int :=
  match assocFind s.globals name with
  | some v => some v
  | none =>
      match s.stackFrames with
      | [] => none
      | f :: _ => assocFind f.localVariables name

def binaryOperation (s : VMState) (f : Int → Int → Option Int) : Option VMState :=
  match s.stack with
  | b :: a :: rest => (f a b).map (fun v => { s with stack := v :: rest })
  | _ => none

/-- Index of the first `EXIT` opcode at position `i` or later; `none`
models the out-of-bounds panic of the skip-scan in the `DECLARE` arm. -/
def findExitFrom (instrs : List OpCode) (i : Nat) : Option Nat :=
  ((instrs.drop i).findIdx? (· = OpCode.EXIT)).map (· + i)

def advance (s : VMState) : VMState :=
  { s with instructionPointer := s.instructionPointer + 1 }

def execInstr (s : VMState) (op : OpCode) : Option (VMState × Bool) :=
  match op with
  | .PUSH v => some ({ s with stack := v :: s.stack }, false)
  | .PRINT =>
      match s.stack with
      | v :: rest => some ({ s with stack := rest, output := s.output ++ [v] }, false)
      | [] => none
  | .ADD => (binaryOperation s (fun a b => some (a + b))).map (fun t => (t, false))
  | .SUB => (binaryOperation s (fun a b => some (a - b))).map (fun t => (t, false))
  | .MUL => (binaryOperation s (fun a b => some (a * b))).map (fun t => (t, false))
  | .DIV =>
      (binaryOperation s (fun a b => if b = 0 then none else some (Int.tdiv a b))).map
        (fun t => (t, false))
  | .STORE name =>
      match s.stack with
      | v :: rest =>
          match s.stackFrames with
          | f :: fs =>
              some ({ s with stack := rest,
                             stackFrames :=
                               { f with localVariables := (name, v) :: f.localVariables } :: fs },
                    false)
          | [] => some ({ s with stack := rest, globals := (name, v) :: s.globals }, false)
      | [] => none
  | .LOAD name =>
      match getVariable s name with
      | some v => some ({ s with stack := v :: s.stack }, false)
      | none => none
  | .DECLARE name =>
      match findExitFrom s.instructions s.instructionPointer with
      | some j =>
          some ({ s with functions := (name, s.instructionPointer + 1) :: s.functions,
                         instructionPointer := j }, false)
      | none => none
  | .CALL name =>
      match assocFind s.functions name with
      | some entry =>
          some ({ s with stackFrames := ⟨[], s.instructionPointer + 1⟩ :: s.stackFrames,
                         callStack := (s.instructionPointer + 1) :: s.callStack,
                         instructionPointer := entry }, false)
      | none => none
  | .TailCall name =>
      match s.stackFrames with
      | f :: fs =>
          match assocFind s.functions name with
          | some entry =>
              some ({ s with stackFrames := { f with localVariables := [] } :: fs,
                             instructionPointer := entry }, false)
          | none => none
      | [] => none
  | .RET =>
      match s.stackFrames with
      | f :: fs => some ({ s with stackFrames := fs, instructionPointer := f.returnAddress }, true)
      | [] => none
  | .ENTER =>
      match s.stackFrames with
      | _ :: _ => some (s, false)
      | [] => none
  | .EXIT => some (s, false)
  | .JUMP a => some ({ s with instructionPointer := a }, true)
  | .JmpIfFalse a =>
      match s.stack with
      | c :: rest =>
          if c = 0 then some ({ s with stack := rest, instructionPointer := a }, true)
          else some ({ s with stack := rest }, false)
      | [] => none
  | .EQUAL =>
      (binaryOperation s (fun a b => some (if a = b then 1 else 0))).map (fun t => (t, false))
  | .NotEqual =>
      (binaryOperation s (fun a b => some (if a = b then 0 else 1))).map (fun t => (t, false))

/-- One iteration of the fetch-execute loop (the loop body runs only while
the instruction pointer is in range). -/
def step (s : VMState) : Option VMState :=
  match s.instructions[s.instructionPointer]? with
  | some op => (execInstr s op).map (fun t => if t.2 then t.1 else advance t.1)
  | none => none

def stepN : Nat → VMState → Option VMState
  | 0, s => some s
  | n + 1, s => (step s).bind (stepN n)

/-! ## Parser (`parser.rs`)

The token type is the lexer's interface.  Each parsing procedure takes a
fuel argument and every call between the mutually recursive procedures
consumes one unit; `PResult.out` (fuel exhausted for every fuel value)
models non-termination, while `PResult.err` models the `Err` results of
the source (whose formatted diagnostic payloads are reduced to fixed
strings, since no caller inspects them). -/

inductive Token
  | identifier (name : String)
  | minus
  | plus
  | divide
  | multiply
  | compareEqual
  | compareNotEqual
  | equal
  | returnKw
  | ifKw
  | elseKw
  | func
  | printKw
  | thisKw
  | leftParen
  | rightParen
  | leftBracket
  | rightBracket
  | colon
  | comma
  | semiColon
  | arrow
  | integer (value : Int)
deriving DecidableEq

structure PState where
  tokens : List Token
  pos : Nat
deriving DecidableEq

def PState.peek (st : PState) : Option Token := st.tokens.get? st.pos

def PState.lookahead (st : PState) : Option Token := st.tokens.get? (st.pos + 1)

def PState.next (st : PState) : PState := { st with pos := st.pos + 1 }

def PState.getCurrentAndNext (st : PState) : Option Token × PState := (st.peek, st.next)

inductive PResult (α : Type)
  | ok (value : α) (st : PState)
  | err (msg : String)
  | out

def PResult.bind {α β : Type} : PResult α → (α → PState → PResult β) → PResult β
  | .ok a st, f => f a st
  | .err m, _ => .err m
  | .out, _ => .out

def expect (st : PState) (expected : Token) : PResult Unit :=
  match st.peek with
  | some t => if t = expected then .ok () st.next else .err "unexpected token"
  | none => .err "unexpected EOF"

def getIdentifier (st : PState) : PResult String :=
  match st.getCurrentAndNext with
  | (some (.identifier n), st2) => .ok n st2
  | (_, _) => .err "expected function name"

def peekOperator (st : PState) : Option Operator :=
  match st.peek with
  | some .plus => some .add
  | some .minus => some .subtract
  | some .multiply => some .multiply
  | some .divide => some .divide
  | _ => none

def operatorPrecedence : Operator → Nat
  | .multiply => 2
  | .divide => 2
  | .add => 1
  | .subtract => 1

mutual
def parseProgram : Nat → PState → PResult Program
  | 0, _ => .out
  | fuel + 1, st =>
      match st.peek with
      | none => .ok (.statements []) st
      | some _ =>
          (parseStatement fuel st).bind fun stmt st2 =>
            (parseProgram fuel st2).bind fun p st3 =>
              match p with
              | .statements rest => .ok (.statements (stmt :: rest)) st3

def parseStatement : Nat → PState → PResult Statement
  | 0, _ => .out
  | fuel + 1, st =>
      match st.peek with
      | some .thisKw =>
          (parseVariableDeclaration fuel st).bind fun d st2 =>
            (expect st2 .semiColon).bind fun _ st3 => .ok d st3
      | some (.identifier _) =>
          if st.lookahead = some .equal then
            (parseAssignment fuel st).bind fun a st2 =>
              (expect st2 .semiColon).bind fun _ st3 => .ok a st3
          else if st.lookahead = some .leftParen then
            (parseFunctionCallExpression fuel st).bind fun e st2 =>
              (expect st2 .semiColon).bind fun _ st3 => .ok (.functionCall e) st3
          else .err "invalid statement"
      | some .func =>
          (parseFunctionDeclaration fuel st).bind fun d st2 =>
            (expect st2 .semiColon).bind fun _ st3 => .ok d st3
      | some .printKw =>
          (expect st.next .leftParen).bind fun _ st2 =>
            (parseExpression fuel st2).bind fun e st3 =>
              (expect st3 .rightParen).bind fun _ st4 =>
                (expect st4 .semiColon).bind fun _ st5 => .ok (.print e) st5
      | some .ifKw =>
          (parseCondition fuel st.next).bind fun cond st2 =>
            (parseBlock fuel st2).bind fun thenB st3 =>
              (if st3.peek = some .elseKw then
                 (parseBlock fuel st3.next).bind fun b st4 => .ok (some b) st4
               else .ok none st3).bind fun elseB st4 =>
                (expect st4 .semiColon).bind fun _ st5 =>
                  .ok (.ifStatement cond thenB elseB) st5
      | _ => .err "invalid statement"

def parseVariableDeclaration : Nat → PState → PResult Statement
  | 0, _ => .out
  | fuel + 1, st =>
      (expect st .thisKw).bind fun _ st2 =>
        match st2.getCurrentAndNext with
        | (some (.identifier name), st3) =>
            (expect st3 .equal).bind fun _ st4 =>
              (parseExpression fuel st4).bind fun v st5 =>
                .ok (.variableDeclaration name v) st5
        | (_, _) => .err "expected an identifier after the declaration keyword"

def parseFunctionDeclaration : Nat → PState → PResult Statement
  | 0, _ => .out
  | fuel + 1, st =>
      (expect st .func).bind fun _ st2 =>
        (getIdentifier st2).bind fun name st3 =>
          (expect st3 .leftParen).bind fun _ st4 =>
            (parseParameterList fuel st4).bind fun params st5 =>
              (expect st5 .rightParen).bind fun _ st6 =>
                (match st6.peek with
                 | some .arrow =>
                     (expect st6.next (.identifier "int")).bind fun _ st7 =>
                       .ok (some TypeAnnotation.int) st7
                 | _ => .ok none st6).bind fun rt st7 =>
                  (parseBlock fuel st7).bind fun body st8 =>
                    .ok (.functionDeclaration name params rt body) st8

def parseParameterList : Nat → PState → PResult (List Parameter)
  | 0, _ => .out
  | fuel + 1, st =>
      match st.peek with
      | some (.identifier name) =>
          (expect st.next .colon).bind fun _ st2 =>
            (expect st2 (.identifier "int")).bind fun _ st3 =>
              match st3.peek with
              | some .comma =>
                  (parseParameterList fuel st3.next).bind fun ps st4 =>
                    .ok (⟨name, .int⟩ :: ps) st4
              | _ => .ok [⟨name, .int⟩] st3
      | _ => .ok [] st

def parseBlockItems : Nat → PState → PResult (List Statement × Option Expression)
  | 0, _ => .out
  | fuel + 1, st =>
      match st.peek with
      | none => .ok ([], none) st
      | some .rightBracket => .ok ([], none) st
      | some .returnKw =>
          (parseExpression fuel st.next).bind fun e st2 =>
            (expect st2 .semiColon).bind fun _ st3 => .ok ([], some e) st3
      | some _ =>
          (parseStatement fuel st).bind fun stmt st2 =>
            (parseBlockItems fuel st2).bind fun rest st3 =>
              .ok (stmt :: rest.1, rest.2) st3

def parseBlock : Nat → PState → PResult Block
  | 0, _ => .out
  | fuel + 1, st =>
      (expect st .leftBracket).bind fun _ st2 =>
        (parseBlockItems fuel st2).bind fun items st3 =>
          (expect st3 .rightBracket).bind fun _ st4 =>
            .ok (.mk items.1 items.2) st4

def parseFunctionCallExpression : Nat → PState → PResult Expression
  | 0, _ => .out
  | fuel + 1, st =>
      (getIdentifier st).bind fun name st2 =>
        (expect st2 .leftParen).bind fun _ st3 =>
          (parseArgumentList fuel st3).bind fun args st4 =>
            (expect st4 .rightParen).bind fun _ st5 =>
              .ok (.functionCall name args) st5

def parseArgumentList : Nat → PState → PResult (List Expression)
  | 0, _ => .out
  | fuel + 1, st =>
      match st.peek with
      | none => .ok [] st
      | some .rightParen => .ok [] st
      | some _ =>
          (parseExpression fuel st).bind fun e st2 =>
            match st2.peek with
            | some .comma =>
                (parseArgumentList fuel st2.next).bind fun es st3 => .ok (e :: es) st3
            | _ => .ok [e] st2

def parseExpression : Nat → PState → PResult Expression
  | 0, _ => .out
  | fuel + 1, st =>
      (parseTerm fuel st).bind fun left st2 =>
        match st2.peek with
        | some .divide => parseArithmeticExpression fuel st2 left
        | some .minus => parseArithmeticExpression fuel st2 left
        | some .plus => parseArithmeticExpression fuel st2 left
        | some .multiply => parseArithmeticExpression fuel st2 left
        | _ => .ok left st2

def parseTerm : Nat → PState → PResult Expression
  | 0, _ => .out
  | fuel + 1, st =>
      match st.peek with
      | none => .err "unexpected end of input"
      | some (.integer v) => .ok (.integer v) st.next
      | some (.identifier name) =>
          if st.lookahead = some .leftParen then parseFunctionCallExpression fuel st
          else .ok (.identifier name) st.next
      | some .leftParen =>
          (parseExpression fuel st).bind fun e st2 =>
            (expect st2 .rightParen).bind fun _ st3 => .ok e st3
      | some _ => .err "invalid term"

def parseAssignment : Nat → PState → PResult Statement
  | 0, _ => .out
  | fuel + 1, st =>
      match st.peek with
      | some (.identifier name) =>
          (expect st.next .equal).bind fun _ st2 =>
            (parseExpression fuel st2).bind fun v st3 => .ok (.assignment name v) st3
      | _ => .err "expected identifier for assignment"

def parseArithmeticExpression : Nat → PState → Expression → PResult Expression
  | 0, _, _ => .out
  | fuel + 1, st, left => parseExpressionWithPrecedence fuel 0 left st

def parseExpressionWithPrecedence : Nat → Nat → Expression → PState → PResult Expression
  | 0, _, _, _ => .out
  | fuel + 1, minPrecedence, left, st =>
      match peekOperator st with
      | none => .ok left st
      | some op =>
          if operatorPrecedence op < minPrecedence then .ok left st
          else
            (parseTerm fuel st.next).bind fun t st2 =>
              (parseExpressionWithPrecedence fuel (operatorPrecedence op + 1) t st2).bind
                fun right st3 =>
                  parseExpressionWithPrecedence fuel minPrecedence
                    (.arithmeticExpression left op right) st3

def parseCondition : Nat → PState → PResult Condition
  | 0, _ => .out
  | fuel + 1, st =>
      (parseExpression fuel st).bind fun left st2 =>
        (match st2.getCurrentAndNext with
         | (some .compareEqual, st3) => .ok ComparativeOperator.equal st3
         | (some .compareNotEqual, st3) => .ok ComparativeOperator.notEqual st3
         | (_, _) => .err "unsupported comparative operator" : PResult ComparativeOperator).bind
          fun op st3 =>
          (parseExpression fuel st3).bind fun right st4 =>
            .ok (.comparison left op right) st4
end

/-! ## A self-tail-recursive countdown program

Source form of the program (the spec's tail-call test case):

  fn countdown(n : int) { if n == 0 { return 0; } else { return countdown(n - 1); }; };
  countdown(N);
-/

def countdownBody : Block :=
  .mk
    [.ifStatement (.comparison (.identifier "n") .equal (.integer 0))
       (.mk [] (some (.integer 0)))
       (some (.mk []
          (some (.functionCall "countdown"
             [.arithmeticExpression (.identifier "n") .subtract (.integer 1)]))))]
    none

def countdownSource (N : Nat) : Program :=
  .statements
    [.functionDeclaration "countdown" [⟨"n", .int⟩] none countdownBody,
     .functionCall (.functionCall "countdown" [.integer (N : Int)])]

/-- The fully resolved bytecode `generate` produces for `countdownSource`. -/
def countdownOps (N : Nat) : List OpCode :=
  [.DECLARE "countdown",     -- 0
   .ENTER,                   -- 1
   .STORE "n",               -- 2
   .LOAD "n",                -- 3
   .PUSH 0,                  -- 4
   .EQUAL,                   -- 5
   .JmpIfFalse 10,           -- 6
   .PUSH 0,                  -- 7
   .RET,                     -- 8
   .JUMP 15,                 -- 9
   .LOAD "n",                -- 10
   .PUSH 1,                  -- 11
   .SUB,                     -- 12
   .TailCall "countdown",    -- 13
   .RET,                     -- 14
   .RET,                     -- 15
   .EXIT,                    -- 16
   .PUSH (N : Int),          -- 17
   .CALL "countdown"]        -- 18

/-- A state inside the countdown recursion: one active frame (return
address 19) with locals `L`, operand stack `stk`, instruction pointer
`ip`. Every state between the initial `CALL` and the final `RET` has this
shape, which makes the depth-1 frame invariant visible by construction. -/
def countdownState (N : Nat) (ip : Nat) (stk : List Int) (L : List (String × Int)) : VMState :=
  { stack := stk, globals := [], instructions := countdownOps N,
    instructionPointer := ip, callStack := [19], stackFrames := [⟨L, 19⟩],
    functions := [("countdown", 1)], output := [] }

/-- The state just after the `DECLARE` skip-scan (about to push the
argument). -/
def countdownMid17 (N : Nat) : VMState :=
  { VMState.initial (countdownOps N) with
    functions := [("countdown", 1)], instructionPointer := 17 }

/-- The state just before the initial `CALL`. -/
def countdownMid18 (N : Nat) : VMState :=
  { countdownMid17 N with stack := [(N : Int)], instructionPointer := 18 }

/-- The halted state after the countdown run: the instruction pointer is
one past the end, the frame stack is empty, the returned 0 is on the
operand stack. -/
def countdownFinal (N : Nat) : VMState :=
  { stack := [0], globals := [], instructions := countdownOps N,
    instructionPointer := 19, callStack := [19], stackFrames := [],
    functions := [("countdown", 1)], output := [] }

/-! ## Token sequences for the precedence test statements -/

/-- Tokens of `this x = 3 + 5 * 4;`. -/
def tokensPrecedence : List Token :=
  [.thisKw, .identifier "x", .equal, .integer 3, .plus, .integer 5, .multiply,
   .integer 4, .semiColon]

/-- Tokens of `this y = 10 - 3 + 2;` (equal-precedence chain). -/
def tokensLeftAssoc : List Token :=
  [.thisKw, .identifier "y", .equal, .integer 10, .minus, .integer 3, .plus,
   .integer 2, .semiColon]

/-- Tokens of `this x = (3 + 5) * 4;`. -/
def tokensParenthesized : List Token :=
  [.thisKw, .identifier "x", .equal, .leftParen, .integer 3, .plus, .integer 5,
   .rightParen, .multiply, .integer 4, .semiColon]

/-! ## Generator invariants used for the label-resolution claims -/

/-- The opcode list only grows by appended instructions. -/
def OpsExtend (s s2 : GenState) : Prop :=
  ∃ B, s2.opcodeList = s.opcodeList ++ B

/-- A state transformation that only appends opcodes and leaves the label
counter, the label positions and the pending jumps untouched (expression
and condition generation are of this shape). -/
def PureEmit (s s2 : GenState) : Prop :=
  OpsExtend s s2 ∧
  s2.labelCounter = s.labelCounter ∧
  s2.labelPositions = s.labelPositions ∧
  s2.unresolvedJumps = s.unresolvedJumps

/-- The index `i` holds a zero-placeholder jump instruction. -/
def IsJumpPlaceholder (ops : List OpCode) (i : Nat) : Prop :=
  ops[i]? = some (.JUMP 0) ∨ ops[i]? = some (.JmpIfFalse 0)

/-- Structural invariant of the generator state: every positioned label
and every pending label is below the fresh-label counter, every pending
jump records an in-range index holding a zero-placeholder jump, and the
recorded indices strictly increase in emission order. -/
def GenInv (s : GenState) : Prop :=
  (∀ lp ∈ s.labelPositions, lp.1 < s.labelCounter) ∧
  (∀ lj ∈ s.unresolvedJumps,
     lj.1 < s.labelCounter ∧ lj.2 < s.opcodeList.length ∧
     IsJumpPlaceholder s.opcodeList lj.2) ∧
  (s.unresolvedJumps.map Prod.snd).Pairwise (· < ·)

/-- Every pending jump's label has a recorded position. -/
def Resolved (s : GenState) : Prop :=
  ∀ lj ∈ s.unresolvedJumps, (assocFind s.labelPositions lj.1).isSome

/-- Relation between the state before and after generating a statement,
block or statement list: opcodes are only appended, the label counter only
grows, positions of previously allocated labels are preserved, and the
pending-jump list is extended by entries whose labels are fresh, whose
indices are new, and whose labels are positioned by the end. -/
def GenStep (s s2 : GenState) : Prop :=
  OpsExtend s s2 ∧
  s.labelCounter ≤ s2.labelCounter ∧
  (∀ l, l < s.labelCounter → assocFind s2.labelPositions l = assocFind s.labelPositions l) ∧
  (∃ NEW, s2.unresolvedJumps = s.unresolvedJumps ++ NEW ∧
     ∀ lj ∈ NEW, s.labelCounter ≤ lj.1 ∧ s.opcodeList.length ≤ lj.2 ∧
       (assocFind s2.labelPositions lj.1).isSome)

/-! # Theorems -/

/-! ## Basic evaluation lemmas for the embedded definitions -/

theorem assocFind_nil {κ α : Type} [DecidableEq κ] (key : κ) :
    assocFind ([] : List (κ × α)) key = none := rfl

theorem assocFind_cons_self {κ α : Type} [DecidableEq κ] (k : κ) (v : α) (rest : List (κ × α)) :
    assocFind ((k, v) :: rest) k = some v := by
  simp [assocFind]

theorem assocFind_cons_ne {κ α : Type} [DecidableEq κ] (k key : κ) (v : α)
    (rest : List (κ × α)) (h : k ≠ key) :
    assocFind ((k, v) :: rest) key = assocFind rest key := by
  simp [assocFind, h]

@[simp] theorem constantFold_integer (n : Int) : constantFold (.integer n) = .integer n := rfl

@[simp] theorem constantFold_identifier (s : String) :
    constantFold (.identifier s) = .identifier s := rfl

@[simp] theorem constantFold_functionCall (name : String) (args : List Expression) :
    constantFold (.functionCall name args) = .functionCall name args := rfl

@[simp] theorem constantFold_arithmetic (l : Expression) (op : Operator) (r : Expression) :
    constantFold (.arithmeticExpression l op r) =
      foldArms (constantFold l) op (constantFold r) := rfl

theorem PResult.bind_out {α β : Type} (f : α → PState → PResult β) :
    PResult.bind .out f = .out := rfl


/-! ## Basic properties of the emission primitives -/

theorem OpsExtend.reflOps (s : GenState) : OpsExtend s s := ⟨[], by simp⟩

theorem OpsExtend.transOps {s1 s2 s3 : GenState}
    (h1 : OpsExtend s1 s2) (h2 : OpsExtend s2 s3) : OpsExtend s1 s3 := by
  obtain ⟨B1, hB1⟩ := h1
  obtain ⟨B2, hB2⟩ := h2
  exact ⟨B1 ++ B2, by simp [hB2, hB1]⟩

theorem PureEmit.reflPure (s : GenState) : PureEmit s s :=
  ⟨OpsExtend.reflOps s, rfl, rfl, rfl⟩

theorem PureEmit.transPure {s1 s2 s3 : GenState}
    (h1 : PureEmit s1 s2) (h2 : PureEmit s2 s3) : PureEmit s1 s3 :=
  ⟨h1.1.transOps h2.1, h2.2.1.trans h1.2.1, h2.2.2.1.trans h1.2.2.1,
   h2.2.2.2.trans h1.2.2.2⟩

theorem PureEmit.emitPure (s : GenState) (op : OpCode) : PureEmit s (emit s op) :=
  ⟨⟨[op], rfl⟩, rfl, rfl, rfl⟩

theorem emit_opcodeList (s : GenState) (op : OpCode) :
    (emit s op).opcodeList = s.opcodeList ++ [op] := rfl

mutual
theorem generateExpression_pure : ∀ (e : Expression) (s : GenState),
    PureEmit s (generateExpression e s)
  | .integer v, s => PureEmit.emitPure s (.PUSH v)
  | .identifier n, s => PureEmit.emitPure s (.LOAD n)
  | .arithmeticExpression l op r, s =>
      ((generateExpression_pure l s).transPure
        (generateExpression_pure r (generateExpression l s))).transPure
        (PureEmit.emitPure _ (operatorOpcode op))
  | .functionCall n args, s =>
      (generateExpressionList_pure args s).transPure (PureEmit.emitPure _ (.CALL n))

theorem generateExpressionList_pure : ∀ (es : List Expression) (s : GenState),
    PureEmit s (generateExpressionList es s)
  | [], s => PureEmit.reflPure s
  | e :: es, s =>
      (generateExpression_pure e s).transPure
        (generateExpressionList_pure es (generateExpression e s))
end

theorem generateCondition_pure (c : Condition) (s : GenState) :
    PureEmit s (generateCondition c s) := by
  rcases c with ⟨l, op, r⟩
  exact ((generateExpression_pure l s).transPure
    (generateExpression_pure r (generateExpression l s))).transPure
    (PureEmit.emitPure _ (comparativeOpcode op))

theorem emitParamStores_spec : ∀ (ps : List Parameter) (s : GenState),
    (emitParamStores ps s).opcodeList =
      s.opcodeList ++ ps.map (fun p => OpCode.STORE p.name) ∧
    PureEmit s (emitParamStores ps s)
  | [], s => ⟨by simp [emitParamStores], PureEmit.reflPure s⟩
  | p :: ps, s => by
      obtain ⟨h1, h2⟩ := emitParamStores_spec ps (emit s (.STORE p.name))
      refine ⟨?_, (PureEmit.emitPure s (.STORE p.name)).transPure h2⟩
      simp [emitParamStores, h1, emit_opcodeList]

theorem OpsExtend.emitOps (s : GenState) (op : OpCode) : OpsExtend s (emit s op) :=
  ⟨[op], rfl⟩

theorem OpsExtend.emitJump (s : GenState) (op : OpCode) (label : Nat) :
    OpsExtend s (emitJump s op label) := ⟨[op], rfl⟩

theorem OpsExtend.getNewLabel (s : GenState) : OpsExtend s (getNewLabel s).2 :=
  ⟨[], by simp [SimpleCompiler.getNewLabel]⟩

theorem OpsExtend.setLabelPosition (s : GenState) (label : Nat) :
    OpsExtend s (setLabelPosition s label) :=
  ⟨[], by simp [SimpleCompiler.setLabelPosition]⟩

mutual
theorem generateStatement_ops : ∀ (st : Statement) (s : GenState),
    OpsExtend s (generateStatement st s)
  | .variableDeclaration _ v, s =>
      ((generateExpression_pure v s).1).transOps (OpsExtend.emitOps _ _)
  | .assignment _ v, s =>
      ((generateExpression_pure v s).1).transOps (OpsExtend.emitOps _ _)
  | .functionCall e, s => (generateExpression_pure e s).1
  | .print e, s =>
      ((generateExpression_pure e s).1).transOps (OpsExtend.emitOps _ _)
  | .functionDeclaration name params _ body, s => by
      refine OpsExtend.transOps (OpsExtend.transOps (OpsExtend.transOps
        ((OpsExtend.emitOps s (.DECLARE name)).transOps (OpsExtend.emitOps _ .ENTER))
        (emitParamStores_spec params.reverse _).2.1)
        ((generateStatement_ops_block body _).transOps ?_)) (OpsExtend.emitOps _ .EXIT)
      split
      · exact OpsExtend.reflOps _
      · exact OpsExtend.emitOps _ .RET
  | .ifStatement cond thenB none, s =>
      ((((((((generateCondition_pure cond s).1.transOps
        (OpsExtend.getNewLabel _)).transOps
        (OpsExtend.getNewLabel _)).transOps
        (OpsExtend.emitJump _ _ _)).transOps
        (generateStatement_ops_block thenB _)).transOps
        (OpsExtend.emitJump _ _ _)).transOps
        (OpsExtend.setLabelPosition _ _)).transOps
        (OpsExtend.setLabelPosition _ _))
  | .ifStatement cond thenB (some b), s =>
      (((((((((generateCondition_pure cond s).1.transOps
        (OpsExtend.getNewLabel _)).transOps
        (OpsExtend.getNewLabel _)).transOps
        (OpsExtend.emitJump _ _ _)).transOps
        (generateStatement_ops_block thenB _)).transOps
        (OpsExtend.emitJump _ _ _)).transOps
        (OpsExtend.setLabelPosition _ _)).transOps
        (generateStatement_ops_block b _)).transOps
        (OpsExtend.setLabelPosition _ _))

theorem generateStatement_ops_list : ∀ (sts : List Statement) (s : GenState),
    OpsExtend s (generateStatementList sts s)
  | [], s => OpsExtend.reflOps s
  | st :: sts, s =>
      (generateStatement_ops st s).transOps
        (generateStatement_ops_list sts (generateStatement st s))

theorem generateStatement_ops_block : ∀ (b : Block) (s : GenState),
    OpsExtend s (generateBlock b s)
  | .mk stmts none, s => generateStatement_ops_list stmts s
  | .mk stmts (some (.functionCall name args)), s =>
      (((generateStatement_ops_list stmts s).transOps
        (generateExpressionList_pure args _).1).transOps
        (OpsExtend.emitOps _ (.TailCall name))).transOps (OpsExtend.emitOps _ .RET)
  | .mk stmts (some (.integer v)), s =>
      ((generateStatement_ops_list stmts s).transOps
        (generateExpression_pure (.integer v) _).1).transOps (OpsExtend.emitOps _ .RET)
  | .mk stmts (some (.identifier n)), s =>
      ((generateStatement_ops_list stmts s).transOps
        (generateExpression_pure (.identifier n) _).1).transOps (OpsExtend.emitOps _ .RET)
  | .mk stmts (some (.arithmeticExpression l op r)), s =>
      ((generateStatement_ops_list stmts s).transOps
        (generateExpression_pure (.arithmeticExpression l op r) _).1).transOps
        (OpsExtend.emitOps _ .RET)
end

/-! ## Generator invariant lemmas (toward C8) -/

theorem IsJumpPlaceholder.mono {ops B : List OpCode} {i : Nat}
    (h : IsJumpPlaceholder ops i) (hi : i < ops.length) :
    IsJumpPlaceholder (ops ++ B) i := by
  rcases h with h | h
  · exact Or.inl (by rw [List.getElem?_append, if_pos hi, h])
  · exact Or.inr (by rw [List.getElem?_append, if_pos hi, h])

theorem PureEmit.genInv {s s2 : GenState} (hp : PureEmit s s2) (hi : GenInv s) :
    GenInv s2 := by
  obtain ⟨⟨B, hB⟩, hc, hpos, hjump⟩ := hp
  obtain ⟨hi1, hi2, hi3⟩ := hi
  refine ⟨?_, ?_, ?_⟩
  · rw [hpos, hc]; exact hi1
  · rw [hjump, hc, hB]
    intro lj hlj
    obtain ⟨h1, h2, h3⟩ := hi2 lj hlj
    exact ⟨h1, by simp; omega, h3.mono h2⟩
  · rw [hjump]; exact hi3

theorem PureEmit.genStep {s s2 : GenState} (hp : PureEmit s s2) : GenStep s s2 := by
  obtain ⟨hops, hc, hpos, hjump⟩ := hp
  exact ⟨hops, hc.ge, fun l _ => by rw [hpos], ⟨[], by simp [hjump], by simp⟩⟩

theorem GenStep.comp_left {s1 s2 s3 : GenState} (hp : PureEmit s1 s2)
    (hg : GenStep s2 s3) : GenStep s1 s3 := by
  obtain ⟨hops, hc, hpos, hjump⟩ := hp
  obtain ⟨gops, gc, gpos, NEW, hN, hNprop⟩ := hg
  refine ⟨hops.transOps gops, by omega, ?_, NEW, ?_, ?_⟩
  · intro l hl
    rw [gpos l (by omega), hpos]
  · rw [hN, hjump]
  · intro lj hlj
    obtain ⟨h1, h2, h3⟩ := hNprop lj hlj
    obtain ⟨B, hB⟩ := hops
    refine ⟨by omega, ?_, h3⟩
    calc s1.opcodeList.length ≤ s2.opcodeList.length := by simp [hB]
      _ ≤ lj.2 := h2

theorem GenStep.comp_right {s1 s2 s3 : GenState} (hg : GenStep s1 s2)
    (hp : PureEmit s2 s3) : GenStep s1 s3 := by
  obtain ⟨gops, gc, gpos, NEW, hN, hNprop⟩ := hg
  obtain ⟨hops, hc, hpos, hjump⟩ := hp
  refine ⟨gops.transOps hops, by omega, ?_, NEW, ?_, ?_⟩
  · intro l hl
    rw [hpos, gpos l hl]
  · rw [hjump, hN]
  · intro lj hlj
    obtain ⟨h1, h2, h3⟩ := hNprop lj hlj
    exact ⟨h1, h2, by rw [hpos]; exact h3⟩

theorem GenStep.trans_of_inv {s1 s2 s3 : GenState} (hi2 : GenInv s2)
    (h12 : GenStep s1 s2) (h23 : GenStep s2 s3) : GenStep s1 s3 := by
  obtain ⟨gops, gc, gpos, NEW1, hN1, hN1prop⟩ := h12
  obtain ⟨hops, hc, hpos, NEW2, hN2, hN2prop⟩ := h23
  refine ⟨gops.transOps hops, le_trans gc hc, ?_, NEW1 ++ NEW2, ?_, ?_⟩
  · intro l hl
    rw [hpos l (lt_of_lt_of_le hl gc), gpos l hl]
  · rw [hN2, hN1, List.append_assoc]
  · intro lj hlj
    rcases List.mem_append.mp hlj with hmem | hmem
    · obtain ⟨h1, h2, h3⟩ := hN1prop lj hmem
      have hin2 : lj ∈ s2.unresolvedJumps := by
        rw [hN1]; exact List.mem_append_right _ hmem
      have hlt : lj.1 < s2.labelCounter := (hi2.2.1 lj hin2).1
      refine ⟨h1, h2, ?_⟩
      rw [hpos lj.1 hlt]; exact h3
    · obtain ⟨h1, h2, h3⟩ := hN2prop lj hmem
      obtain ⟨B, hB⟩ := gops
      refine ⟨le_trans gc h1, ?_, h3⟩
      calc s1.opcodeList.length ≤ s2.opcodeList.length := by simp [hB]
        _ ≤ lj.2 := h2

theorem genInv_counterLe {s : GenState} (hi : GenInv s) {n : Nat}
    (h : s.labelCounter ≤ n) : GenInv { s with labelCounter := n } := by
  obtain ⟨hi1, hi2, hi3⟩ := hi
  refine ⟨?_, ?_, hi3⟩
  · intro lp hlp
    exact lt_of_lt_of_le (hi1 lp hlp) h
  · intro lj hlj
    obtain ⟨h1, h2, h3⟩ := hi2 lj hlj
    exact ⟨lt_of_lt_of_le h1 h, h2, h3⟩

theorem emitJump_genInv {s : GenState} (hi : GenInv s) {op : OpCode} {label : Nat}
    (hop : op = .JUMP 0 ∨ op = .JmpIfFalse 0) (hl : label < s.labelCounter) :
    GenInv (emitJump s op label) := by
  obtain ⟨hi1, hi2, hi3⟩ := hi
  refine ⟨hi1, ?_, ?_⟩
  · intro lj hlj
    simp only [emitJump] at hlj ⊢
    rcases List.mem_append.mp hlj with hmem | hmem
    · obtain ⟨h1, h2, h3⟩ := hi2 lj hmem
      refine ⟨h1, by simp; omega, h3.mono h2⟩
    · rcases List.mem_singleton.mp hmem with rfl
      refine ⟨hl, by simp, ?_⟩
      rcases hop with rfl | rfl
      · exact Or.inl (by simp)
      · exact Or.inr (by simp)
  · simp only [emitJump, List.map_append]
    rw [List.pairwise_append]
    refine ⟨hi3, by simp, ?_⟩
    intro a ha b hb
    simp only [List.map_cons, List.map_nil, List.mem_singleton] at hb
    subst hb
    obtain ⟨x, hx, rfl⟩ := List.mem_map.mp ha
    exact (hi2 x hx).2.1

theorem setLabelPosition_genInv {s : GenState} (hi : GenInv s) {label : Nat}
    (hl : label < s.labelCounter) : GenInv (setLabelPosition s label) := by
  obtain ⟨hi1, hi2, hi3⟩ := hi
  refine ⟨?_, hi2, hi3⟩
  intro lp hlp
  simp only [setLabelPosition, List.mem_cons] at hlp
  rcases hlp with rfl | hlp
  · exact hl
  · exact hi1 lp hlp

/-- Invariant preservation for one if-statement, abstracted over the
states after the condition (`s1`), after the then-block (`s5`) and after
the optional else-block (`s8`): the two fresh labels are positioned before
the statement ends, old label positions survive, and every pending jump
added in between is resolved. -/
theorem if_inv_aux (s s1 s5 s8 : GenState)
    (hp1 : PureEmit s s1)
    (hs5 : GenInv (emitJump { s1 with labelCounter := s1.labelCounter + 2 }
              (.JmpIfFalse 0) s1.labelCounter) →
           GenInv s5 ∧
           GenStep (emitJump { s1 with labelCounter := s1.labelCounter + 2 }
              (.JmpIfFalse 0) s1.labelCounter) s5)
    (hs8 : GenInv (setLabelPosition (emitJump s5 (.JUMP 0) (s1.labelCounter + 1))
              s1.labelCounter) →
           GenInv s8 ∧
           GenStep (setLabelPosition (emitJump s5 (.JUMP 0) (s1.labelCounter + 1))
              s1.labelCounter) s8)
    (hi : GenInv s) :
    GenInv (setLabelPosition s8 (s1.labelCounter + 1)) ∧
    GenStep s (setLabelPosition s8 (s1.labelCounter + 1)) := by
  have hi1 : GenInv s1 := hp1.genInv hi
  obtain ⟨⟨B1, hB1⟩, hc1, hpos1, hjump1⟩ := hp1
  have hi4 : GenInv (emitJump { s1 with labelCounter := s1.labelCounter + 2 }
      (.JmpIfFalse 0) s1.labelCounter) := by
    refine emitJump_genInv (genInv_counterLe hi1 (by omega)) (Or.inr rfl) ?_
    show s1.labelCounter < s1.labelCounter + 2
    omega
  obtain ⟨hi5, hstep5⟩ := hs5 hi4
  have hc5 : s1.labelCounter + 2 ≤ s5.labelCounter := hstep5.2.1
  have hi6 : GenInv (emitJump s5 (.JUMP 0) (s1.labelCounter + 1)) := by
    refine emitJump_genInv hi5 (Or.inl rfl) ?_
    omega
  have hi7 : GenInv (setLabelPosition (emitJump s5 (.JUMP 0) (s1.labelCounter + 1))
      s1.labelCounter) := by
    refine setLabelPosition_genInv hi6 ?_
    show s1.labelCounter < s5.labelCounter
    omega
  obtain ⟨hi8, hstep8⟩ := hs8 hi7
  have hc8 : s5.labelCounter ≤ s8.labelCounter := hstep8.2.1
  refine ⟨setLabelPosition_genInv hi8 (show s1.labelCounter + 1 < s8.labelCounter by omega), ?_⟩
  -- plain-form restatements of the two block steps
  obtain ⟨⟨B5, hB5⟩, _, hpos5, N5, hN5, hN5p⟩ := hstep5
  obtain ⟨⟨B8, hB8⟩, _, hpos8, N8, hN8, hN8p⟩ := hstep8
  have hB5' : s5.opcodeList = s1.opcodeList ++ [OpCode.JmpIfFalse 0] ++ B5 := hB5
  have hB8' : s8.opcodeList = s5.opcodeList ++ [OpCode.JUMP 0] ++ B8 := hB8
  have hpos5' : ∀ l, l < s1.labelCounter + 2 →
      assocFind s5.labelPositions l = assocFind s1.labelPositions l := hpos5
  have hpos8' : ∀ l, l < s5.labelCounter →
      assocFind s8.labelPositions l =
        assocFind ((s1.labelCounter, (s5.opcodeList ++ [OpCode.JUMP 0]).length)
          :: s5.labelPositions) l := hpos8
  have hN5' : s5.unresolvedJumps =
      (s1.unresolvedJumps ++ [(s1.labelCounter, s1.opcodeList.length)]) ++ N5 := hN5
  have hN5p' : ∀ lj ∈ N5, s1.labelCounter + 2 ≤ lj.1 ∧
      (s1.opcodeList ++ [OpCode.JmpIfFalse 0]).length ≤ lj.2 ∧
      (assocFind s5.labelPositions lj.1).isSome := hN5p
  have hN8' : s8.unresolvedJumps =
      (s5.unresolvedJumps ++ [(s1.labelCounter + 1, s5.opcodeList.length)]) ++ N8 := hN8
  have hN8p' : ∀ lj ∈ N8, s5.labelCounter ≤ lj.1 ∧
      (s5.opcodeList ++ [OpCode.JUMP 0]).length ≤ lj.2 ∧
      (assocFind s8.labelPositions lj.1).isSome := hN8p
  have hlen1 : s1.opcodeList.length = s.opcodeList.length + B1.length := by
    simp only [hB1, List.length_append]
  have hlen5 : s5.opcodeList.length = s1.opcodeList.length + 1 + B5.length := by
    simp only [hB5', List.length_append, List.length_cons, List.length_nil]
  have hset9 : (setLabelPosition s8 (s1.labelCounter + 1)).labelPositions =
      (s1.labelCounter + 1, s8.opcodeList.length) :: s8.labelPositions := rfl
  refine ⟨?_, ?_, ?_, ?_⟩
  · exact ⟨B1 ++ [OpCode.JmpIfFalse 0] ++ B5 ++ [OpCode.JUMP 0] ++ B8,
      show s8.opcodeList = _ by simp [hB8', hB5', hB1]⟩
  · show s.labelCounter ≤ s8.labelCounter
    omega
  · intro l hl
    rw [hset9, assocFind_cons_ne _ _ _ _ (by omega : s1.labelCounter + 1 ≠ l),
      hpos8' l (by omega), assocFind_cons_ne _ _ _ _ (by omega : s1.labelCounter ≠ l),
      hpos5' l (by omega), hpos1]
  · refine ⟨[(s1.labelCounter, s1.opcodeList.length)] ++ N5 ++
      [(s1.labelCounter + 1, s5.opcodeList.length)] ++ N8, ?_, ?_⟩
    · show s8.unresolvedJumps = _
      rw [hN8', hN5', hjump1]
      simp
    · intro lj hlj
      simp only [List.append_assoc, List.mem_append, List.mem_singleton] at hlj
      rcases hlj with rfl | hmem | rfl | hmem
      · refine ⟨show s.labelCounter ≤ s1.labelCounter by omega,
          show s.opcodeList.length ≤ s1.opcodeList.length by omega, ?_⟩
        rw [hset9, assocFind_cons_ne _ _ _ _ (by omega : s1.labelCounter + 1 ≠ s1.labelCounter),
          hpos8' s1.labelCounter (by omega), assocFind_cons_self]
        rfl
      · obtain ⟨ha, hb, hc⟩ := hN5p' lj hmem
        simp only [List.length_append, List.length_cons, List.length_nil] at hb
        have hlt5 : lj.1 < s5.labelCounter := by
          refine (hi5.2.1 lj ?_).1
          rw [hN5']
          exact List.mem_append_right _ hmem
        refine ⟨by omega, by omega, ?_⟩
        rw [hset9, assocFind_cons_ne _ _ _ _ (by omega : s1.labelCounter + 1 ≠ lj.1),
          hpos8' lj.1 hlt5, assocFind_cons_ne _ _ _ _ (by omega : s1.labelCounter ≠ lj.1)]
        exact hc
      · refine ⟨show s.labelCounter ≤ s1.labelCounter + 1 by omega,
          show s.opcodeList.length ≤ s5.opcodeList.length by omega, ?_⟩
        rw [hset9, assocFind_cons_self]
        rfl
      · obtain ⟨ha, hb, hc⟩ := hN8p' lj hmem
        simp only [List.length_append, List.length_cons, List.length_nil] at hb
        refine ⟨by omega, by omega, ?_⟩
        rw [hset9, assocFind_cons_ne _ _ _ _ (by omega : s1.labelCounter + 1 ≠ lj.1)]
        exact hc

mutual
theorem generateStatement_inv : ∀ (st : Statement) (s : GenState), GenInv s →
    GenInv (generateStatement st s) ∧ GenStep s (generateStatement st s)
  | .variableDeclaration _ v, s, hi =>
      have hp := (generateExpression_pure v s).transPure (PureEmit.emitPure _ _)
      ⟨hp.genInv hi, hp.genStep⟩
  | .assignment _ v, s, hi =>
      have hp := (generateExpression_pure v s).transPure (PureEmit.emitPure _ _)
      ⟨hp.genInv hi, hp.genStep⟩
  | .functionCall e, s, hi =>
      ⟨(generateExpression_pure e s).genInv hi, (generateExpression_pure e s).genStep⟩
  | .print e, s, hi =>
      have hp := (generateExpression_pure e s).transPure (PureEmit.emitPure _ _)
      ⟨hp.genInv hi, hp.genStep⟩
  | .functionDeclaration name params rt body, s, hi => by
      have hp1 : PureEmit s
          (emitParamStores params.reverse (emit (emit s (.DECLARE name)) .ENTER)) :=
        ((PureEmit.emitPure s (.DECLARE name)).transPure (PureEmit.emitPure _ .ENTER)).transPure
          (emitParamStores_spec params.reverse _).2
      have hb := generateStatement_inv_block body
        (emitParamStores params.reverse (emit (emit s (.DECLARE name)) .ENTER))
        (hp1.genInv hi)
      have hp2 : PureEmit
          (generateBlock body (emitParamStores params.reverse
            (emit (emit s (.DECLARE name)) .ENTER)))
          (generateStatement (.functionDeclaration name params rt body) s) := by
        simp only [generateStatement]
        split
        · exact PureEmit.emitPure _ _
        · exact (PureEmit.emitPure _ .RET).transPure (PureEmit.emitPure _ .EXIT)
      exact ⟨hp2.genInv hb.1, (GenStep.comp_left hp1 hb.2).comp_right hp2⟩
  | .ifStatement cond thenB none, s, hi => by
      exact if_inv_aux s (generateCondition cond s) _ _
        (generateCondition_pure cond s)
        (fun h4 => generateStatement_inv_block thenB _ h4)
        (fun h7 => ⟨h7, (PureEmit.reflPure _).genStep⟩)
        hi
  | .ifStatement cond thenB (some b), s, hi => by
      exact if_inv_aux s (generateCondition cond s) _ _
        (generateCondition_pure cond s)
        (fun h4 => generateStatement_inv_block thenB _ h4)
        (fun h7 => generateStatement_inv_block b _ h7)
        hi

theorem generateStatement_inv_list : ∀ (sts : List Statement) (s : GenState), GenInv s →
    GenInv (generateStatementList sts s) ∧ GenStep s (generateStatementList sts s)
  | [], s, hi => ⟨hi, (PureEmit.reflPure s).genStep⟩
  | st :: sts, s, hi =>
      have h1 := generateStatement_inv st s hi
      have h2 := generateStatement_inv_list sts (generateStatement st s) h1.1
      ⟨h2.1, GenStep.trans_of_inv h1.1 h1.2 h2.2⟩

theorem generateStatement_inv_block : ∀ (b : Block) (s : GenState), GenInv s →
    GenInv (generateBlock b s) ∧ GenStep s (generateBlock b s)
  | .mk stmts none, s, hi => generateStatement_inv_list stmts s hi
  | .mk stmts (some (.functionCall name args)), s, hi =>
      have h1 := generateStatement_inv_list stmts s hi
      have hp : PureEmit (generateStatementList stmts s)
          (generateBlock (.mk stmts (some (.functionCall name args))) s) :=
        ((generateExpressionList_pure args _).transPure
          (PureEmit.emitPure _ (.TailCall name))).transPure (PureEmit.emitPure _ .RET)
      ⟨hp.genInv h1.1, h1.2.comp_right hp⟩
  | .mk stmts (some (.integer v)), s, hi =>
      have h1 := generateStatement_inv_list stmts s hi
      have hp : PureEmit (generateStatementList stmts s)
          (generateBlock (.mk stmts (some (.integer v))) s) :=
        (generateExpression_pure (.integer v) _).transPure (PureEmit.emitPure _ .RET)
      ⟨hp.genInv h1.1, h1.2.comp_right hp⟩
  | .mk stmts (some (.identifier n)), s, hi =>
      have h1 := generateStatement_inv_list stmts s hi
      have hp : PureEmit (generateStatementList stmts s)
          (generateBlock (.mk stmts (some (.identifier n))) s) :=
        (generateExpression_pure (.identifier n) _).transPure (PureEmit.emitPure _ .RET)
      ⟨hp.genInv h1.1, h1.2.comp_right hp⟩
  | .mk stmts (some (.arithmeticExpression l op r)), s, hi =>
      have h1 := generateStatement_inv_list stmts s hi
      have hp : PureEmit (generateStatementList stmts s)
          (generateBlock (.mk stmts (some (.arithmeticExpression l op r))) s) :=
        (generateExpression_pure (.arithmeticExpression l op r) _).transPure
          (PureEmit.emitPure _ .RET)
      ⟨hp.genInv h1.1, h1.2.comp_right hp⟩
end

theorem generateProgramState_inv (p : Program) :
    GenInv (generateProgramState p) ∧ Resolved (generateProgramState p) := by
  have h : ∀ (sts : List Statement) (s : GenState), GenInv s → Resolved s →
      GenInv (generateStatementList sts s) ∧ Resolved (generateStatementList sts s) := by
    intro sts
    induction sts with
    | nil => exact fun s hi hr => ⟨hi, hr⟩
    | cons st sts ih =>
        intro s hi hr
        have h1 := generateStatement_inv st s hi
        have hr1 : Resolved (generateStatement st s) := by
          obtain ⟨_, _, hpos, N, hN, hNp⟩ := h1.2
          intro lj hlj
          rw [hN] at hlj
          rcases List.mem_append.mp hlj with hmem | hmem
          · rw [hpos lj.1 (hi.2.1 lj hmem).1]
            exact hr lj hmem
          · exact (hNp lj hmem).2.2
        exact ih (generateStatement st s) h1.1 hr1
  rcases p with ⟨stmts⟩
  refine h stmts GenState.initial ⟨?_, ?_, ?_⟩ ?_ <;>
    simp [GenState.initial, Resolved]

theorem resolveLoop_spec : ∀ (entries positions : List (Nat × Nat)) (ops : List OpCode),
    (∀ lj ∈ entries, (assocFind positions lj.1).isSome ∧ lj.2 < ops.length ∧
       ((∃ a, ops[lj.2]? = some (.JUMP a)) ∨ (∃ a, ops[lj.2]? = some (.JmpIfFalse a)))) →
    (entries.map Prod.snd).Pairwise (· < ·) →
    ∃ ops2, resolveLoop entries positions ops = some ops2 ∧
      ops2.length = ops.length ∧
      (∀ i, i ∉ entries.map Prod.snd → ops2[i]? = ops[i]?) ∧
      (∀ lj ∈ entries, ∃ pos, assocFind positions lj.1 = some pos ∧
         (ops2[lj.2]? = some (.JUMP pos) ∨ ops2[lj.2]? = some (.JmpIfFalse pos)))
  | [], positions, ops, _, _ =>
      ⟨ops, rfl, rfl, fun _ _ => rfl, fun lj h => absurd h (List.not_mem_nil lj)⟩
  | (l, i) :: rest, positions, ops, hprop, hpair => by
      obtain ⟨hsome, hlen, hshape⟩ := hprop (l, i) (List.mem_cons_self _ _)
      obtain ⟨pos, hpos⟩ := Option.isSome_iff_exists.mp hsome
      have hhead : ∀ j ∈ rest.map Prod.snd, i < j := (List.pairwise_cons.mp hpair).1
      have hpair2 : (rest.map Prod.snd).Pairwise (· < ·) := (List.pairwise_cons.mp hpair).2
      have hne : ∀ lj ∈ rest, i ≠ lj.2 := by
        intro lj hlj
        exact Nat.ne_of_lt (hhead lj.2 (List.mem_map_of_mem _ hlj))
      have hinotin : i ∉ rest.map Prod.snd := by
        intro hmem
        exact absurd (hhead i hmem) (lt_irrefl i)
      rcases hshape with ⟨a, ha⟩ | ⟨a, ha⟩
      · have hrest : ∀ lj ∈ rest, (assocFind positions lj.1).isSome ∧
            lj.2 < (ops.set i (.JUMP pos)).length ∧
            ((∃ a2, (ops.set i (.JUMP pos))[lj.2]? = some (.JUMP a2)) ∨
             (∃ a2, (ops.set i (.JUMP pos))[lj.2]? = some (.JmpIfFalse a2))) := by
          intro lj hlj
          obtain ⟨h1, h2, h3⟩ := hprop lj (List.mem_cons_of_mem _ hlj)
          rw [List.length_set, List.getElem?_set_ne (hne lj hlj)]
          exact ⟨h1, h2, h3⟩
        obtain ⟨ops2, hh1, hh2, hh3, hh4⟩ :=
          resolveLoop_spec rest positions (ops.set i (.JUMP pos)) hrest hpair2
        refine ⟨ops2, ?_, ?_, ?_, ?_⟩
        · simp only [resolveLoop, hpos, ha, setJumpAddress]
          exact hh1
        · rw [hh2, List.length_set]
        · intro j hj
          simp only [List.map_cons, List.mem_cons, not_or] at hj
          rw [hh3 j hj.2, List.getElem?_set_ne (Ne.symm hj.1)]
        · intro lj hlj
          rcases List.mem_cons.mp hlj with rfl | hmem
          · refine ⟨pos, hpos, Or.inl ?_⟩
            show ops2[i]? = some (OpCode.JUMP pos)
            rw [hh3 i hinotin]
            exact List.getElem?_set_eq_of_lt _ hlen
          · exact hh4 lj hmem
      · have hrest : ∀ lj ∈ rest, (assocFind positions lj.1).isSome ∧
            lj.2 < (ops.set i (.JmpIfFalse pos)).length ∧
            ((∃ a2, (ops.set i (.JmpIfFalse pos))[lj.2]? = some (.JUMP a2)) ∨
             (∃ a2, (ops.set i (.JmpIfFalse pos))[lj.2]? = some (.JmpIfFalse a2))) := by
          intro lj hlj
          obtain ⟨h1, h2, h3⟩ := hprop lj (List.mem_cons_of_mem _ hlj)
          rw [List.length_set, List.getElem?_set_ne (hne lj hlj)]
          exact ⟨h1, h2, h3⟩
        obtain ⟨ops2, hh1, hh2, hh3, hh4⟩ :=
          resolveLoop_spec rest positions (ops.set i (.JmpIfFalse pos)) hrest hpair2
        refine ⟨ops2, ?_, ?_, ?_, ?_⟩
        · simp only [resolveLoop, hpos, ha, setJumpAddress]
          exact hh1
        · rw [hh2, List.length_set]
        · intro j hj
          simp only [List.map_cons, List.mem_cons, not_or] at hj
          rw [hh3 j hj.2, List.getElem?_set_ne (Ne.symm hj.1)]
        · intro lj hlj
          rcases List.mem_cons.mp hlj with rfl | hmem
          · refine ⟨pos, hpos, Or.inr ?_⟩
            show ops2[i]? = some (OpCode.JmpIfFalse pos)
            rw [hh3 i hinotin]
            exact List.getElem?_set_eq_of_lt _ hlen
          · exact hh4 lj hmem

/-! ## Tail calls and the countdown program (C1) -/

theorem stepN_add (a b : Nat) (s : VMState) :
    stepN (a + b) s = (stepN a s).bind (stepN b) := by
  induction a generalizing s with
  | zero => simp [stepN]
  | succ a ih =>
      rw [Nat.succ_add]
      show (step s).bind (stepN (a + b)) = ((step s).bind (stepN a)).bind (stepN b)
      cases hs : step s with
      | none => rfl
      | some t => simpa using ih t

theorem countdown_step_init (N : Nat) :
    step (VMState.initial (countdownOps N)) = some (countdownMid17 N) := rfl

theorem countdown_step_17 (N : Nat) :
    step (countdownMid17 N) = some (countdownMid18 N) := rfl

theorem countdown_step_18 (N : Nat) :
    step (countdownMid18 N) = some (countdownState N 2 [(N : Int)] []) := rfl

theorem countdown_step_2 (N : Nat) (v : Int) (L : List (String × Int)) :
    step (countdownState N 2 [v] L) =
      some (countdownState N 3 [] (("n", v) :: L)) := rfl

theorem countdown_step_3 (N : Nat) (v : Int) (L : List (String × Int)) :
    step (countdownState N 3 [] (("n", v) :: L)) =
      some (countdownState N 4 [v] (("n", v) :: L)) := rfl

theorem countdown_step_4 (N : Nat) (v : Int) (L : List (String × Int)) :
    step (countdownState N 4 [v] L) =
      some (countdownState N 5 [0, v] L) := rfl

theorem countdown_step_5 (N : Nat) (v : Int) (L : List (String × Int)) :
    step (countdownState N 5 [0, v] L) =
      some (countdownState N 6 [if v = 0 then 1 else 0] L) := rfl

theorem countdown_step_6_true (N : Nat) (L : List (String × Int)) :
    step (countdownState N 6 [1] L) = some (countdownState N 7 [] L) := rfl

theorem countdown_step_6_false (N : Nat) (L : List (String × Int)) :
    step (countdownState N 6 [0] L) = some (countdownState N 10 [] L) := rfl

theorem countdown_step_7 (N : Nat) (L : List (String × Int)) :
    step (countdownState N 7 [] L) = some (countdownState N 8 [0] L) := rfl

theorem countdown_step_8 (N : Nat) (L : List (String × Int)) :
    step (countdownState N 8 [0] L) = some (countdownFinal N) := rfl

theorem countdown_step_10 (N : Nat) (v : Int) (L : List (String × Int)) :
    step (countdownState N 10 [] (("n", v) :: L)) =
      some (countdownState N 11 [v] (("n", v) :: L)) := rfl

theorem countdown_step_11 (N : Nat) (v : Int) (L : List (String × Int)) :
    step (countdownState N 11 [v] L) =
      some (countdownState N 12 [1, v] L) := rfl

theorem countdown_step_12 (N : Nat) (v : Int) (L : List (String × Int)) :
    step (countdownState N 12 [1, v] L) =
      some (countdownState N 13 [v - 1] L) := rfl

theorem countdown_step_13 (N : Nat) (w : Int) (L : List (String × Int)) :
    step (countdownState N 13 [w] L) =
      some (countdownState N 2 [w] []) := rfl

theorem countdown_loop_step (N : Nat) (v : Int) (L : List (String × Int)) (hv : v ≠ 0) :
    stepN 9 (countdownState N 2 [v] L) = some (countdownState N 2 [v - 1] []) := by
  have hite : (if v = 0 then (1 : Int) else 0) = 0 := if_neg hv
  calc stepN 9 (countdownState N 2 [v] L)
      = stepN 5 (countdownState N 6 [if v = 0 then 1 else 0] (("n", v) :: L)) := rfl
    _ = stepN 5 (countdownState N 6 [0] (("n", v) :: L)) := by rw [hite]
    _ = some (countdownState N 2 [v - 1] []) := rfl

theorem countdown_base_step (N : Nat) (L : List (String × Int)) :
    stepN 7 (countdownState N 2 [0] L) = some (countdownFinal N) := rfl

theorem countdown_prologue (N : Nat) :
    stepN 3 (VMState.initial (countdownOps N)) =
      some (countdownState N 2 [(N : Int)] []) := rfl

theorem countdown_main (N : Nat) : ∀ (w : Nat) (L : List (String × Int)),
    stepN (9 * w + 7) (countdownState N 2 [(w : Int)] L) = some (countdownFinal N) := by
  intro w
  induction w with
  | zero => intro L; simpa using countdown_base_step N L
  | succ w ih =>
      intro L
      have hv : ((w + 1 : Nat) : Int) ≠ 0 := by
        exact_mod_cast Nat.succ_ne_zero w
      have hcast : ((w + 1 : Nat) : Int) - 1 = (w : Int) := by push_cast; ring
      have h9 := countdown_loop_step N ((w + 1 : Nat) : Int) L hv
      rw [hcast] at h9
      rw [show 9 * (w + 1) + 7 = 9 + (9 * w + 7) by ring, stepN_add, h9]
      simpa using ih []

theorem countdown_total (N : Nat) :
    stepN (9 * N + 10) (VMState.initial (countdownOps N)) = some (countdownFinal N) := by
  rw [show 9 * N + 10 = 3 + (9 * N + 7) by ring, stepN_add, countdown_prologue]
  simpa using countdown_main N N []

theorem framesBound_compose {n a b : Nat} {s t : VMState} (hab : stepN a s = some t)
    (h1 : ∀ j, j ≤ a → ∀ u, stepN j s = some u → u.stackFrames.length ≤ n)
    (h2 : ∀ j, j ≤ b → ∀ u, stepN j t = some u → u.stackFrames.length ≤ n) :
    ∀ j, j ≤ a + b → ∀ u, stepN j s = some u → u.stackFrames.length ≤ n := by
  intro j hj u hu
  by_cases hja : j ≤ a
  · exact h1 j hja u hu
  · rw [show j = a + (j - a) by omega, stepN_add, hab] at hu
    exact h2 (j - a) (by omega) u (by simpa using hu)

theorem countdown_prologue_bound (N : Nat) :
    ∀ j, j ≤ 3 → ∀ u, stepN j (VMState.initial (countdownOps N)) = some u →
      u.stackFrames.length ≤ 1 := by
  intro j hj u hu
  interval_cases j
  · rw [show stepN 0 (VMState.initial (countdownOps N)) =
        some (VMState.initial (countdownOps N)) from rfl] at hu
    injection hu with h
    subst h
    exact Nat.zero_le 1
  · rw [show stepN 1 (VMState.initial (countdownOps N)) =
        some (countdownMid17 N) from rfl] at hu
    injection hu with h
    subst h
    exact Nat.zero_le 1
  · rw [show stepN 2 (VMState.initial (countdownOps N)) =
        some (countdownMid18 N) from rfl] at hu
    injection hu with h
    subst h
    exact Nat.zero_le 1
  · rw [countdown_prologue N] at hu
    injection hu with h
    subst h
    exact Nat.le.refl

theorem countdown_loop_bound (N : Nat) (v : Int) (L : List (String × Int)) (hv : v ≠ 0) :
    ∀ j, j ≤ 9 → ∀ u, stepN j (countdownState N 2 [v] L) = some u →
      u.stackFrames.length ≤ 1 := by
  have hite : (if v = 0 then (1 : Int) else 0) = 0 := if_neg hv
  intro j hj u hu
  interval_cases j
  · rw [show stepN 0 (countdownState N 2 [v] L) = some (countdownState N 2 [v] L)
      from rfl] at hu
    injection hu with h; subst h; exact Nat.le.refl
  · rw [show stepN 1 (countdownState N 2 [v] L) =
        some (countdownState N 3 [] (("n", v) :: L)) from rfl] at hu
    injection hu with h; subst h; exact Nat.le.refl
  · rw [show stepN 2 (countdownState N 2 [v] L) =
        some (countdownState N 4 [v] (("n", v) :: L)) from rfl] at hu
    injection hu with h; subst h; exact Nat.le.refl
  · rw [show stepN 3 (countdownState N 2 [v] L) =
        some (countdownState N 5 [0, v] (("n", v) :: L)) from rfl] at hu
    injection hu with h; subst h; exact Nat.le.refl
  · rw [show stepN 4 (countdownState N 2 [v] L) =
        some (countdownState N 6 [if v = 0 then 1 else 0] (("n", v) :: L)) from rfl,
      hite] at hu
    injection hu with h; subst h; exact Nat.le.refl
  · rw [show stepN 5 (countdownState N 2 [v] L) =
        stepN 1 (countdownState N 6 [if v = 0 then 1 else 0] (("n", v) :: L)) from rfl,
      hite, show stepN 1 (countdownState N 6 [0] (("n", v) :: L)) =
        some (countdownState N 10 [] (("n", v) :: L)) from rfl] at hu
    injection hu with h; subst h; exact Nat.le.refl
  · rw [show stepN 6 (countdownState N 2 [v] L) =
        stepN 2 (countdownState N 6 [if v = 0 then 1 else 0] (("n", v) :: L)) from rfl,
      hite, show stepN 2 (countdownState N 6 [0] (("n", v) :: L)) =
        some (countdownState N 11 [v] (("n", v) :: L)) from rfl] at hu
    injection hu with h; subst h; exact Nat.le.refl
  · rw [show stepN 7 (countdownState N 2 [v] L) =
        stepN 3 (countdownState N 6 [if v = 0 then 1 else 0] (("n", v) :: L)) from rfl,
      hite, show stepN 3 (countdownState N 6 [0] (("n", v) :: L)) =
        some (countdownState N 12 [1, v] (("n", v) :: L)) from rfl] at hu
    injection hu with h; subst h; exact Nat.le.refl
  · rw [show stepN 8 (countdownState N 2 [v] L) =
        stepN 4 (countdownState N 6 [if v = 0 then 1 else 0] (("n", v) :: L)) from rfl,
      hite, show stepN 4 (countdownState N 6 [0] (("n", v) :: L)) =
        some (countdownState N 13 [v - 1] (("n", v) :: L)) from rfl] at hu
    injection hu with h; subst h; exact Nat.le.refl
  · rw [countdown_loop_step N v L hv] at hu
    injection hu with h; subst h; exact Nat.le.refl

theorem countdown_base_bound (N : Nat) (L : List (String × Int)) :
    ∀ j, j ≤ 7 → ∀ u, stepN j (countdownState N 2 [0] L) = some u →
      u.stackFrames.length ≤ 1 := by
  intro j hj u hu
  interval_cases j
  · rw [show stepN 0 (countdownState N 2 [0] L) = some (countdownState N 2 [0] L)
      from rfl] at hu
    injection hu with h; subst h; exact Nat.le.refl
  · rw [show stepN 1 (countdownState N 2 [0] L) =
        some (countdownState N 3 [] (("n", 0) :: L)) from rfl] at hu
    injection hu with h; subst h; exact Nat.le.refl
  · rw [show stepN 2 (countdownState N 2 [0] L) =
        some (countdownState N 4 [0] (("n", 0) :: L)) from rfl] at hu
    injection hu with h; subst h; exact Nat.le.refl
  · rw [show stepN 3 (countdownState N 2 [0] L) =
        some (countdownState N 5 [0, 0] (("n", 0) :: L)) from rfl] at hu
    injection hu with h; subst h; exact Nat.le.refl
  · rw [show stepN 4 (countdownState N 2 [0] L) =
        some (countdownState N 6 [1] (("n", 0) :: L)) from rfl] at hu
    injection hu with h; subst h; exact Nat.le.refl
  · rw [show stepN 5 (countdownState N 2 [0] L) =
        some (countdownState N 7 [] (("n", 0) :: L)) from rfl] at hu
    injection hu with h; subst h; exact Nat.le.refl
  · rw [show stepN 6 (countdownState N 2 [0] L) =
        some (countdownState N 8 [0] (("n", 0) :: L)) from rfl] at hu
    injection hu with h; subst h; exact Nat.le.refl
  · rw [countdown_base_step N L] at hu
    injection hu with h; subst h; exact Nat.zero_le 1

theorem countdown_region_bound (N : Nat) : ∀ (w : Nat) (L : List (String × Int)),
    ∀ j, j ≤ 9 * w + 7 → ∀ u, stepN j (countdownState N 2 [(w : Int)] L) = some u →
      u.stackFrames.length ≤ 1 := by
  intro w
  induction w with
  | zero =>
      intro L
      have h := countdown_base_bound N L
      simpa using h
  | succ w ih =>
      intro L
      have hv : ((w + 1 : Nat) : Int) ≠ 0 := by exact_mod_cast Nat.succ_ne_zero w
      have hcast : ((w + 1 : Nat) : Int) - 1 = (w : Int) := by push_cast; ring
      have h9 := countdown_loop_step N ((w + 1 : Nat) : Int) L hv
      rw [hcast] at h9
      have hcomp := framesBound_compose h9 (countdown_loop_bound N _ L hv) (ih [])
      intro j hj u hu
      exact hcomp j (by omega) u hu

theorem countdown_full_bound (N : Nat) :
    ∀ j, j ≤ 9 * N + 10 → ∀ u, stepN j (VMState.initial (countdownOps N)) = some u →
      u.stackFrames.length ≤ 1 := by
  have hcomp := framesBound_compose (countdown_prologue N)
    (countdown_prologue_bound N) (countdown_region_bound N N [])
  intro j hj u hu
  exact hcomp j (by omega) u hu

/-- C1: the code generator emits `TailCall` (not `CALL`) for a block whose
return expression is a direct function call; the VM's tail call pushes no
frame — it clears the innermost frame's locals in place, keeps that
frame's return address, and transfers control to the callee's entry
(`instruction_pointer` is assigned the entry address recorded in the
function table, and the fetch loop's implicit advance then lands on the
instruction after the `ENTER` marker, exactly as for an ordinary call);
consequently the compiled self-tail-recursive countdown program runs to
completion for every argument `N` with the frame stack never exceeding
depth 1. -/
theorem claim1_tail_call_frame_reuse :
    (∀ (stmts : List Statement) (name : String) (args : List Expression) (s : GenState),
       (generateBlock (.mk stmts (some (.functionCall name args))) s).opcodeList =
         (generateExpressionList args (generateStatementList stmts s)).opcodeList ++
           [.TailCall name, .RET]) ∧
    (∀ (s : VMState) (name : String) (f : Frame) (fs : List Frame) (entry : Nat),
       s.instructions[s.instructionPointer]? = some (.TailCall name) →
       s.stackFrames = f :: fs →
       assocFind s.functions name = some entry →
       step s = some (advance { s with
                       stackFrames := { f with localVariables := [] } :: fs,
                       instructionPointer := entry })) ∧
    (∀ N : Nat, generate (countdownSource N) = some (countdownOps N)) ∧
    (∀ N : Nat,
       stepN (9 * N + 10) (VMState.initial (countdownOps N)) = some (countdownFinal N) ∧
       (countdownFinal N).instructionPointer = (countdownOps N).length ∧
       (countdownFinal N).stackFrames = [] ∧
       (∀ j, j ≤ 9 * N + 10 → ∀ u,
          stepN j (VMState.initial (countdownOps N)) = some u →
          u.stackFrames.length ≤ 1)) := by
  refine ⟨?_, ?_, ?_, ?_⟩
  · intro stmts name args s
    simp [generateBlock, emit_opcodeList, List.append_assoc]
  · intro s name f fs entry hfetch hframes hfn
    simp [step, hfetch, execInstr, hframes, hfn]
  · intro N
    rfl
  · intro N
    exact ⟨countdown_total N, rfl, rfl, countdown_full_bound N⟩

/-- C1 witness: a concrete tail call reuses the single frame (locals
cleared, return address 9 kept, no frame pushed), and the countdown
program for `N = 2` halts after 28 steps with an intermediate state of the
run staying at frame depth 1. -/
theorem claim1_tail_call_frame_reuse_witness :
    step { stack := [5], globals := [], instructions := [.TailCall "f", .ENTER],
           instructionPointer := 0, callStack := [], stackFrames := [⟨[("x", 3)], 9⟩],
           functions := [("f", 0)], output := [] } =
      some (advance { stack := [5], globals := [],
                      instructions := [.TailCall "f", .ENTER],
                      instructionPointer := 0, callStack := [],
                      stackFrames := [⟨[], 9⟩],
                      functions := [("f", 0)], output := [] }) ∧
    stepN 28 (VMState.initial (countdownOps 2)) = some (countdownFinal 2) ∧
    (countdownState 2 4 [(2 : Int)] [("n", 2)]).stackFrames.length ≤ 1 :=
  ⟨claim1_tail_call_frame_reuse.2.1 _ "f" ⟨[("x", 3)], 9⟩ [] 0 rfl rfl rfl,
   (claim1_tail_call_frame_reuse.2.2.2 2).1,
   (claim1_tail_call_frame_reuse.2.2.2 2).2.2.2 5 (by omega)
     (countdownState 2 4 [(2 : Int)] [("n", 2)]) rfl⟩

/-- C8: for every program, label resolution succeeds and overwrites each
pending jump's zero placeholder with the absolute instruction index
recorded for its label (every label the generator creates is positioned by
the time its statement is finished, so no unresolved placeholder reaches
the virtual machine); resolving a label that was never positioned is a
fatal internal error. -/
theorem claim8_label_resolution :
    (∀ p : Program, ∃ ops, generate p = some ops ∧
       ∀ lj ∈ (generateProgramState p).unresolvedJumps,
         ∃ pos, assocFind (generateProgramState p).labelPositions lj.1 = some pos ∧
           IsJumpPlaceholder (generateProgramState p).opcodeList lj.2 ∧
           (ops[lj.2]? = some (.JUMP pos) ∨ ops[lj.2]? = some (.JmpIfFalse pos))) ∧
    (∀ (l i : Nat) (rest positions : List (Nat × Nat)) (ops : List OpCode),
       assocFind positions l = none →
       resolveLoop ((l, i) :: rest) positions ops = none) := by
  constructor
  · intro p
    obtain ⟨hinv, hres⟩ := generateProgramState_inv p
    have hprop : ∀ lj ∈ (generateProgramState p).unresolvedJumps,
        (assocFind (generateProgramState p).labelPositions lj.1).isSome ∧
        lj.2 < (generateProgramState p).opcodeList.length ∧
        ((∃ a, (generateProgramState p).opcodeList[lj.2]? = some (.JUMP a)) ∨
         (∃ a, (generateProgramState p).opcodeList[lj.2]? = some (.JmpIfFalse a))) := by
      intro lj hlj
      obtain ⟨_, h2, h3⟩ := hinv.2.1 lj hlj
      refine ⟨hres lj hlj, h2, ?_⟩
      rcases h3 with h | h
      · exact Or.inl ⟨0, h⟩
      · exact Or.inr ⟨0, h⟩
    obtain ⟨ops2, h1, _, _, h4⟩ := resolveLoop_spec (generateProgramState p).unresolvedJumps
      (generateProgramState p).labelPositions (generateProgramState p).opcodeList hprop hinv.2.2
    refine ⟨ops2, h1, ?_⟩
    intro lj hlj
    obtain ⟨pos, hpos, hjump⟩ := h4 lj hlj
    exact ⟨pos, hpos, (hinv.2.1 lj hlj).2.2, hjump⟩
  · intro l i rest positions ops h
    simp [resolveLoop, h]

/-- C8 witness: an unpositioned label makes resolution fatal, and in the
concretely generated countdown program the pending conditional jump at
index 6 (label 0) is resolved to the recorded position of its label. -/
theorem claim8_label_resolution_witness :
    resolveLoop [(0, 5)] [] [OpCode.JUMP 0] = none ∧
    (∃ ops, generate (countdownSource 1) = some ops ∧
       ∃ pos, assocFind (generateProgramState (countdownSource 1)).labelPositions 0 = some pos ∧
         IsJumpPlaceholder (generateProgramState (countdownSource 1)).opcodeList 6 ∧
         (ops[6]? = some (.JUMP pos) ∨ ops[6]? = some (.JmpIfFalse pos))) := by
  constructor
  · exact claim8_label_resolution.2 0 5 [] [] [OpCode.JUMP 0] rfl
  · obtain ⟨ops, h1, h2⟩ := claim8_label_resolution.1 (countdownSource 1)
    have h3 := h2 (0, 6) (by decide)
    exact ⟨ops, h1, h3⟩

/-! ## Code generator: function-declaration layout (C7) -/

/-- C7: a function declaration emits, in order, the declare marker, the
entry marker, one store per parameter in reverse declared order, the body
block's instructions, a return instruction exactly when the body has no
trailing return expression, and finally the exit marker. -/
theorem claim7_function_declaration_layout (s : GenState) (name : String)
    (params : List Parameter) (rt : Option TypeAnnotation) (body : Block) :
    ∃ B,
      (generateBlock body (emitParamStores params.reverse
          (emit (emit s (.DECLARE name)) .ENTER))).opcodeList =
        s.opcodeList ++ [.DECLARE name, .ENTER] ++
          params.reverse.map (fun p => OpCode.STORE p.name) ++ B ∧
      (generateStatement (.functionDeclaration name params rt body) s).opcodeList =
        s.opcodeList ++ [.DECLARE name, .ENTER] ++
          params.reverse.map (fun p => OpCode.STORE p.name) ++ B ++
          (if body.returnExpression.isSome then [] else [.RET]) ++ [.EXIT] := by
  obtain ⟨hps, _⟩ := emitParamStores_spec params.reverse (emit (emit s (.DECLARE name)) .ENTER)
  obtain ⟨B, hB⟩ := generateStatement_ops_block body
    (emitParamStores params.reverse (emit (emit s (.DECLARE name)) .ENTER))
  refine ⟨B, ?_, ?_⟩
  · simp [hB, hps, emit_opcodeList]
  · simp only [generateStatement]
    split
    · simp_all [emit_opcodeList, hps]
    · simp_all [emit_opcodeList, hps]

/-! ## Optimizer: pass-through of non-arithmetic expressions (C9) -/

/-- C9: constant folding returns integer literals, identifiers and function
calls unchanged; in particular the argument list of a function call is
returned exactly as given, without recursive folding. -/
theorem claim9_constantFold_passthrough :
    (∀ n : Int, constantFold (.integer n) = .integer n) ∧
    (∀ s : String, constantFold (.identifier s) = .identifier s) ∧
    (∀ (name : String) (args : List Expression),
       constantFold (.functionCall name args) = .functionCall name args) :=
  ⟨fun _ => rfl, fun _ => rfl, fun _ _ => rfl⟩

/-! ## Optimizer: algebraic identities (C6) -/

/-- C6: for any `y` that does not fold to an integer literal, folding
`1 * y`, `y * 1`, `0 + y` and `y + 0` yields the folded `y` itself;
`0 * z` and `z * 0` fold to the literal `0` for every `z`; and `y - 0`
and `y / 1` are merely reconstructed as arithmetic nodes. -/
theorem claim6_identity_folding (y : Expression)
    (h : ∀ n : Int, constantFold y ≠ .integer n) :
    constantFold (.arithmeticExpression (.integer 1) .multiply y) = constantFold y ∧
    constantFold (.arithmeticExpression y .multiply (.integer 1)) = constantFold y ∧
    constantFold (.arithmeticExpression (.integer 0) .add y) = constantFold y ∧
    constantFold (.arithmeticExpression y .add (.integer 0)) = constantFold y ∧
    (∀ z : Expression,
       constantFold (.arithmeticExpression (.integer 0) .multiply z) = .integer 0 ∧
       constantFold (.arithmeticExpression z .multiply (.integer 0)) = .integer 0) ∧
    constantFold (.arithmeticExpression y .subtract (.integer 0)) =
      .arithmeticExpression (constantFold y) .subtract (.integer 0) ∧
    constantFold (.arithmeticExpression y .divide (.integer 1)) =
      .arithmeticExpression (constantFold y) .divide (.integer 1) := by
  have hz : ∀ z : Expression,
      constantFold (.arithmeticExpression (.integer 0) .multiply z) = .integer 0 ∧
      constantFold (.arithmeticExpression z .multiply (.integer 0)) = .integer 0 := by
    intro z
    rcases hzf : constantFold z with n | s | ⟨nm, args⟩ | ⟨l, o, r⟩ <;>
      constructor <;> simp [hzf, foldArms]
  rcases hy : constantFold y with n | s | ⟨nm, args⟩ | ⟨l, o, r⟩
  · exact absurd hy (h n)
  · refine ⟨?_, ?_, ?_, ?_, hz, ?_, ?_⟩ <;> simp [hy, foldArms]
  · refine ⟨?_, ?_, ?_, ?_, hz, ?_, ?_⟩ <;> simp [hy, foldArms]
  · refine ⟨?_, ?_, ?_, ?_, hz, ?_, ?_⟩ <;> simp [hy, foldArms]

/-- C6 witness: the identity rules evaluated at concrete non-literal
operands. -/
theorem claim6_identity_folding_witness :
    constantFold (.arithmeticExpression (.integer 1) .multiply (.identifier "a")) =
      constantFold (.identifier "a") ∧
    constantFold (.arithmeticExpression (.identifier "a") .multiply (.integer 0)) =
      .integer 0 ∧
    constantFold (.arithmeticExpression (.identifier "a") .divide (.integer 1)) =
      .arithmeticExpression (constantFold (.identifier "a")) .divide (.integer 1) := by
  have h := claim6_identity_folding (.identifier "a") (by intro n; simp [constantFold])
  exact ⟨h.1, (h.2.2.2.2.1 (.identifier "a")).2, h.2.2.2.2.2.2⟩

/-! ## Optimizer and VM: division by a literal zero (C5) -/

/-- C5: folding a division whose children fold to literals evaluates the
truncating quotient only for a nonzero right literal; a zero right literal
is reconstructed as a division node, and executing `DIV` with a zero
divisor at run time is fatal (`step` returns `none`). -/
theorem claim5_division_deferral :
    (∀ (e1 e2 : Expression) (l r : Int),
       constantFold e1 = .integer l → constantFold e2 = .integer r →
       (r ≠ 0 →
          constantFold (.arithmeticExpression e1 .divide e2) = .integer (Int.tdiv l r)) ∧
       (r = 0 →
          constantFold (.arithmeticExpression e1 .divide e2) =
            .arithmeticExpression (.integer l) .divide (.integer 0))) ∧
    (∀ (s : VMState) (a : Int) (rest : List Int),
       s.instructions[s.instructionPointer]? = some .DIV →
       s.stack = 0 :: a :: rest → step s = none) := by
  constructor
  · intro e1 e2 l r h1 h2
    constructor
    · intro hr
      simp [h1, h2, foldArms, hr]
    · intro hr
      subst hr
      simp [h1, h2, foldArms]
  · intro s a rest hfetch hstack
    simp only [step, hfetch, execInstr, binaryOperation, hstack]
    simp

/-! ## VM: store/load order (C2) and the push-only call stack (C10) -/

/-- Every `execute` arm other than `CALL` leaves the auxiliary
`call_stack` unchanged; in particular neither `RET` nor `TailCall` pops
it. -/
theorem execInstr_callStack {s : VMState} {op : OpCode} {t : VMState} {b : Bool}
    (hop : ∀ name, op ≠ OpCode.CALL name)
    (h : execInstr s op = some (t, b)) :
    t.callStack = s.callStack := by
  cases op <;> try exact absurd rfl (hop _)
  all_goals
    simp only [execInstr, binaryOperation] at h
  all_goals
    repeat' split at h
  all_goals
    try simp only [Option.map_some', Option.map_none', Option.some.injEq,
      Prod.mk.injEq] at h
  all_goals
    first
    | exact Option.noConfusion h
    | exact h.elim
    | (obtain ⟨h1, h2⟩ := h; subst h1; rfl)

/-- C2: a `STORE` pops the operand stack and writes into the innermost
frame's locals when a frame is active, into the global table otherwise; a
`LOAD` consults the global table first and falls back to the innermost
frame's locals only when the name is globally absent, so a global binding
shadows a same-named local on read. -/
theorem claim2_store_global_shadow :
    (∀ (s : VMState) (name : String) (v : Int) (rest : List Int) (f : Frame) (fs : List Frame),
       s.instructions[s.instructionPointer]? = some (.STORE name) →
       s.stack = v :: rest → s.stackFrames = f :: fs →
       step s = some (advance { s with
                        stack := rest,
                        stackFrames :=
                          { f with localVariables := (name, v) :: f.localVariables } :: fs })) ∧
    (∀ (s : VMState) (name : String) (v : Int) (rest : List Int),
       s.instructions[s.instructionPointer]? = some (.STORE name) →
       s.stack = v :: rest → s.stackFrames = [] →
       step s = some (advance { s with stack := rest, globals := (name, v) :: s.globals })) ∧
    (∀ (s : VMState) (name : String) (g : Int),
       assocFind s.globals name = some g → getVariable s name = some g) ∧
    (∀ (s : VMState) (name : String) (f : Frame) (fs : List Frame),
       assocFind s.globals name = none → s.stackFrames = f :: fs →
       getVariable s name = assocFind f.localVariables name) ∧
    (∀ (s : VMState) (name : String) (g l : Int) (f : Frame) (fs : List Frame),
       s.instructions[s.instructionPointer]? = some (.LOAD name) →
       s.stackFrames = f :: fs →
       assocFind s.globals name = some g →
       assocFind f.localVariables name = some l →
       step s = some (advance { s with stack := g :: s.stack })) := by
  refine ⟨?_, ?_, ?_, ?_, ?_⟩
  · intro s name v rest f fs hfetch hstack hframes
    simp [step, hfetch, execInstr, hstack, hframes]
  · intro s name v rest hfetch hstack hframes
    simp [step, hfetch, execInstr, hstack, hframes]
  · intro s name g hg
    simp [getVariable, hg]
  · intro s name f fs hg hframes
    simp [getVariable, hg, hframes]
  · intro s name g l f fs hfetch hframes hg hl
    simp [step, hfetch, execInstr, getVariable, hg]

/-- C2 witness: with a global `x = 1` and a frame-local `x = 2`, a load of
`x` pushes the global value 1. -/
theorem claim2_store_global_shadow_witness :
    step { stack := [], globals := [("x", 1)], instructions := [.LOAD "x"],
           instructionPointer := 0, callStack := [7],
           stackFrames := [⟨[("x", 2)], 7⟩], functions := [], output := [] } =
      some (advance { stack := [1], globals := [("x", 1)], instructions := [.LOAD "x"],
                      instructionPointer := 0, callStack := [7],
                      stackFrames := [⟨[("x", 2)], 7⟩], functions := [], output := [] }) :=
  claim2_store_global_shadow.2.2.2.2 _ "x" 1 2 ⟨[("x", 2)], 7⟩ [] rfl rfl rfl rfl

/-- C10: `CALL` pushes the return address onto the auxiliary `call_stack`
(and a frame onto the frame stack); no other instruction ever modifies the
`call_stack`, and `RET` pops only the frame stack while restoring the
instruction pointer — so the `call_stack` grows by one for every ordinary
call executed and is never shrunk. -/
theorem claim10_call_stack_push_only :
    (∀ (s : VMState) (name : String) (entry : Nat),
       s.instructions[s.instructionPointer]? = some (.CALL name) →
       assocFind s.functions name = some entry →
       step s = some { s with
                       stackFrames := ⟨[], s.instructionPointer + 1⟩ :: s.stackFrames,
                       callStack := (s.instructionPointer + 1) :: s.callStack,
                       instructionPointer := entry + 1 }) ∧
    (∀ (s s2 : VMState), step s = some s2 →
       (∀ name : String, s.instructions[s.instructionPointer]? ≠ some (.CALL name)) →
       s2.callStack = s.callStack) ∧
    (∀ (s : VMState) (f : Frame) (fs : List Frame),
       s.instructions[s.instructionPointer]? = some .RET → s.stackFrames = f :: fs →
       step s = some { s with stackFrames := fs, instructionPointer := f.returnAddress }) := by
  refine ⟨?_, ?_, ?_⟩
  · intro s name entry hfetch hfn
    simp [step, hfetch, execInstr, hfn, advance]
  · intro s s2 hstep hnotcall
    rcases hfetch : s.instructions[s.instructionPointer]? with _ | op
    · simp [step, hfetch] at hstep
    · have hop : ∀ name, op ≠ OpCode.CALL name := by
        intro name he
        exact hnotcall name (he ▸ hfetch)
      simp only [step, hfetch, Option.map_eq_some'] at hstep
      rcases hstep with ⟨⟨t, b⟩, ht, hs2⟩
      have hcs := execInstr_callStack hop ht
      rcases b with _ | _
      · simp only [Bool.false_eq_true, if_neg, ite_false] at hs2
        subst hs2
        simpa [advance] using hcs
      · simp only [ite_true] at hs2
        subst hs2
        exact hcs
  · intro s f fs hfetch hframes
    simp [step, hfetch, execInstr, hframes]

/-- C10 witness: a concrete `CALL` pushes one return address; a concrete
`RET` pops a frame but leaves the call stack alone. -/
theorem claim10_call_stack_push_only_witness :
    step { stack := [], globals := [], instructions := [.CALL "f", .EXIT, .ENTER],
           instructionPointer := 0, callStack := [], stackFrames := [],
           functions := [("f", 2)], output := [] } =
      some { stack := [], globals := [], instructions := [.CALL "f", .EXIT, .ENTER],
             instructionPointer := 3, callStack := [1], stackFrames := [⟨[], 1⟩],
             functions := [("f", 2)], output := [] } ∧
    step { stack := [], globals := [], instructions := [.RET],
           instructionPointer := 0, callStack := [5], stackFrames := [⟨[], 9⟩],
           functions := [], output := [] } =
      some { stack := [], globals := [], instructions := [.RET],
             instructionPointer := 9, callStack := [5], stackFrames := [],
             functions := [], output := [] } :=
  ⟨claim10_call_stack_push_only.1 _ "f" 2 rfl rfl,
   claim10_call_stack_push_only.2.2 _ ⟨[], 9⟩ [] rfl rfl⟩

/-! ## Parser: parenthesized terms and precedence (C3, C4) -/

/-- In `parse_term`, the arm for a leading left parenthesis calls
`parse_expression` without consuming the parenthesis, so both procedures
re-enter each other at the same position forever: for every fuel value the
fuel-indexed parser family returns `out` (the marker for non-termination),
never a success and never a parse error. -/
theorem parseTerm_paren_out :
    ∀ (fuel : Nat) (st : PState), st.peek = some .leftParen →
      parseTerm fuel st = .out ∧ parseExpression fuel st = .out := by
  intro fuel
  induction fuel with
  | zero => exact fun st _ => ⟨rfl, rfl⟩
  | succ f ih =>
      intro st h
      constructor
      · simp [parseTerm, h, (ih st h).2, PResult.bind]
      · simp [parseExpression, (ih st h).1, PResult.bind]

/-- C3: the claim asserts that parsing `this x = (3 + 5) * 4;` succeeds
(and then folds to `x = 32`), but the parser never terminates on this
input: for every fuel the embedded parser yields `out`, i.e. the source
recurses forever on the unconsumed left parenthesis.  This records the
divergence of the code from the claim (and from the grammar in the spec). -/
theorem claim3_paren_statement_diverges :
    ∀ fuel : Nat, parseProgram fuel ⟨tokensParenthesized, 0⟩ = .out := by
  intro fuel
  match fuel with
  | 0 => rfl
  | 1 => rfl
  | 2 => rfl
  | f + 3 =>
      have h3 : parseExpression f ⟨tokensParenthesized, 3⟩ = .out :=
        (parseTerm_paren_out f ⟨tokensParenthesized, 3⟩ rfl).2
      simp only [tokensParenthesized] at h3
      simp [parseProgram, parseStatement, parseVariableDeclaration, expect,
        PState.peek, PState.next, PState.getCurrentAndNext, tokensParenthesized,
        h3, PResult.bind]

/-- C4: `this x = 3 + 5 * 4;` parses with multiplication binding tighter
than addition, the optimizer folds the initializer to `23`, and an
equal-precedence chain (`10 - 3 + 2`) parses left-associated. -/
theorem claim4_precedence_parse_and_fold :
    parseProgram 64 ⟨tokensPrecedence, 0⟩ =
      .ok (.statements [.variableDeclaration "x"
        (.arithmeticExpression (.integer 3) .add
          (.arithmeticExpression (.integer 5) .multiply (.integer 4)))])
        ⟨tokensPrecedence, 9⟩ ∧
    optimizeAst (.statements [.variableDeclaration "x"
        (.arithmeticExpression (.integer 3) .add
          (.arithmeticExpression (.integer 5) .multiply (.integer 4)))]) =
      .statements [.variableDeclaration "x" (.integer 23)] ∧
    parseProgram 64 ⟨tokensLeftAssoc, 0⟩ =
      .ok (.statements [.variableDeclaration "y"
        (.arithmeticExpression
          (.arithmeticExpression (.integer 10) .subtract (.integer 3)) .add (.integer 2))])
        ⟨tokensLeftAssoc, 9⟩ :=
  ⟨rfl, rfl, rfl⟩

/-- C5 witness: `6 / 3` folds to `2`, `5 / 0` stays a division node, and a
`DIV` instruction over a zero divisor halts execution. -/
theorem claim5_division_deferral_witness :
    constantFold (.arithmeticExpression (.integer 6) .divide (.integer 3)) = .integer 2 ∧
    constantFold (.arithmeticExpression (.integer 5) .divide (.integer 0)) =
      .arithmeticExpression (.integer 5) .divide (.integer 0) ∧
    step { stack := [0, 7], globals := [], instructions := [.DIV], instructionPointer := 0,
           callStack := [], stackFrames := [], functions := [], output := [] } = none := by
  refine ⟨?_, ?_, ?_⟩
  · have h := ((claim5_division_deferral.1 (.integer 6) (.integer 3) 6 3 rfl rfl).1
      (by decide))
    simpa using h
  · exact (claim5_division_deferral.1 (.integer 5) (.integer 0) 5 0 rfl rfl).2 rfl
  · exact claim5_division_deferral.2 _ 7 [] rfl rfl

end SimpleCompiler
